import Mathlib

/-!
# Verification of `labs_analyzer.py`

A shallow embedding of the lab-results pipeline (`load_csv`,
`normalize_schema`, `apply_reference_ranges`, `summarize`, plus the
load-stage error handling of `main`) together with theorems settling the
frozen claims about its natural-language specification.

Modelling conventions:
* A pandas cell is a `Cell`: missing (`NaN`/`pd.NA`/`NaT`), a string, or a
  number.  Numbers are modelled as `ℚ` (the float values occurring in the
  program — reference bounds and CSV numerics — are exact decimals, and the
  comparisons performed on them coincide with the rational ones; the IEEE
  special values `nan`/`inf`, reachable only by calling the flagger directly
  with the literal strings "nan"/"inf" in an un-normalized value column, are
  not modelled).
* A `DataFrame` is a `Table`: a list of column names and a list of rows.
* Effectful parts (file existence, CSV parsing) are made explicit: the
  loader takes an `InputFile` carrying an existence bit, the path suffix and
  the parsed raw table, and returns `Except LoadError Table`.
-/

/-- A single cell of a dataframe: missing, string-typed, or numeric. -/
inductive Cell where
  | na : Cell
  | str (s : String) : Cell
  | num (q : ℚ) : Cell
deriving DecidableEq, Repr

/-- The `pd.isna` test on a cell. -/
def Cell.isNa : Cell → Bool
  | .na => true
  | _ => false

/-- A dataframe: column names plus rows of cells. -/
structure Table where
  cols : List String
  rows : List (List Cell)
deriving DecidableEq, Repr

/-- Modify the element at index `i` (no-op when out of range). -/
def modifyIdx (f : Cell → Cell) : ℕ → List Cell → List Cell
  | _, [] => []
  | 0, c :: r => f c :: r
  | n + 1, c :: r => c :: modifyIdx f n r

/-- Read the cell of `row` in the column named `name` (the column label is
resolved to the first index with that name, as pandas label lookup does);
`d` is the default returned when the label is absent, matching
`row.get(name, d)`. -/
def getCellD (cols : List String) (row : List Cell) (name : String) (d : Cell) : Cell :=
  match cols.findIdx? (· == name) with
  | some i => row.getD i .na
  | none => d

/-- Write cell `c` into `row` at the column named `name` (no-op when the
label is absent), matching `df.at[i, name] = c`. -/
def setCellByName (cols : List String) (row : List Cell) (name : String) (c : Cell) : List Cell :=
  match cols.findIdx? (· == name) with
  | some i => row.set i c
  | none => row

/-- Assignment `df[name] = c` for a constant `c`: overwrite the column in place when it
exists, otherwise append it on the right. -/
def setConstCol (t : Table) (name : String) (c : Cell) : Table :=
  match t.cols.findIdx? (· == name) with
  | some i => ⟨t.cols, t.rows.map (fun r => r.set i c)⟩
  | none => ⟨t.cols ++ [name], t.rows.map (fun r => r ++ [c])⟩

/-! ## Whitespace stripping (Python `str.strip`) -/

/-- Leading- and trailing-whitespace removal on a character list. -/
def stripChars (cs : List Char) : List Char :=
  ((cs.dropWhile Char.isWhitespace).reverse.dropWhile Char.isWhitespace).reverse

/-- Python `str.strip()`. -/
def pyStrip (s : String) : String := String.mk (stripChars s.data)

/-- ASCII `str.lower()` (the headers and keywords compared in the program
are ASCII, where Python and this agree).  `String.toLower` itself is
well-founded-recursive and does not evaluate definitionally. -/
def strLower (s : String) : String := String.mk (s.data.map Char.toLower)

/-- ASCII `str.upper()`. -/
def strUpper (s : String) : String := String.mk (s.data.map Char.toUpper)

/-- A string with no leading and no trailing whitespace. -/
def isStripped (s : String) : Bool :=
  (match s.data.head? with
   | some c => !c.isWhitespace
   | none => true)
  && (match s.data.getLast? with
      | some c => !c.isWhitespace
      | none => true)

/-! ## Numeric parsing (`float(...)` / `pd.to_numeric(..., errors="coerce")`
on strings): optional surrounding whitespace, optional sign, decimal digits
with an optional fractional part. -/

/-- Accumulating decimal-digit parser; `none` on a non-digit. -/
def digitsAux (acc : ℕ) : List Char → Option ℕ
  | [] => some acc
  | c :: cs => if c.isDigit then digitsAux (acc * 10 + (c.toNat - 48)) cs else none

/-- Parse a non-empty all-digit character list. -/
def parseDigits (cs : List Char) : Option ℕ :=
  if cs.isEmpty then none else digitsAux 0 cs

/-- Parse an unsigned decimal numeral with optional fractional part,
returned as a (mantissa, power-of-ten denominator) pair, so the rational is
`mantissa / den`.  (Built this way so that the resulting `ℚ` is produced by
`mkRat`, which evaluates definitionally, unlike the `irreducible` rational
arithmetic operations.) -/
def parseUnsigned (cs : List Char) : Option (ℕ × ℕ) :=
  match cs.splitOn '.' with
  | [ip] => (parseDigits ip).map (fun n => (n, 1))
  | [ip, fp] =>
    if ip.isEmpty then
      (parseDigits fp).map (fun f => (f, 10 ^ fp.length))
    else if fp.isEmpty then
      (parseDigits ip).map (fun n => (n, 1))
    else
      (parseDigits ip).bind (fun n =>
        (parseDigits fp).map (fun f => (n * 10 ^ fp.length + f, 10 ^ fp.length)))
  | _ => none

/-- Parse a decimal number the way `float(s)` / `pd.to_numeric` accepts
plain decimals: surrounding whitespace, optional sign, digits, optional
fractional part.  (Exponents and the IEEE specials are not modelled.) -/
def parseNum (s : String) : Option ℚ :=
  match stripChars s.data with
  | '-' :: cs => (parseUnsigned cs).map (fun p => mkRat (-(p.1 : ℤ)) p.2)
  | '+' :: cs => (parseUnsigned cs).map (fun p => mkRat (p.1 : ℤ) p.2)
  | cs => (parseUnsigned cs).map (fun p => mkRat (p.1 : ℤ) p.2)

/-! ## Date parsing and ISO formatting

Models the lenient `pd.to_datetime(..., errors="coerce")` followed by
`.dt.date.astype("string")` for ISO-shaped inputs: a date `Y-M-D` with a
4-digit year and 1–2 digit month/day, validated against the calendar, is
re-emitted zero-padded as `YYYY-MM-DD`; anything else coerces to missing.
(The epoch interpretation `to_datetime` gives to *numeric* input, and its
many non-ISO string formats, are not modelled; they never arise in the
claims under verification.) -/

/-- Fuel-driven big-endian digit accumulation (structural recursion so
that it evaluates definitionally; `Nat.digits` is well-founded-recursive
and does not). -/
def natDigitCharsAux : ℕ → ℕ → List Char → List Char
  | 0, _, acc => acc
  | f + 1, n, acc => if n = 0 then acc else natDigitCharsAux f (n / 10) (Nat.digitChar (n % 10) :: acc)

/-- Big-endian decimal digit characters of `n` (empty for 0). -/
def natDigitChars (n : ℕ) : List Char := natDigitCharsAux n n []

/-- Digits of `n`, left-padded with zeros to width `w`. -/
def padChars (w n : ℕ) : List Char :=
  List.replicate (w - (natDigitChars n).length) '0' ++ natDigitChars n

/-- Gregorian leap year. -/
def isLeapYear (y : ℕ) : Bool := (y % 4 == 0 && y % 100 != 0) || y % 400 == 0

/-- Number of days in month `m` of year `y`. -/
def monthLen (y m : ℕ) : ℕ :=
  if m == 2 then (if isLeapYear y then 29 else 28)
  else if m == 4 || m == 6 || m == 9 || m == 11 then 30
  else 31

/-- Parse `Y-M-D` characters: 4-digit year, 1–2 digit month and day,
calendar-valid. -/
def parseDateChars (cs : List Char) : Option (ℕ × ℕ × ℕ) :=
  let ys := cs.takeWhile (· != '-')
  match cs.dropWhile (· != '-') with
  | [] => none
  | _ :: rest₁ =>
    let ms := rest₁.takeWhile (· != '-')
    (match rest₁.dropWhile (· != '-') with
     | [] => none
     | _ :: ds =>
       if ys.length == 4 && 1 ≤ ms.length && ms.length ≤ 2 && 1 ≤ ds.length && ds.length ≤ 2 then
         match parseDigits ys, parseDigits ms, parseDigits ds with
         | some y, some m, some d =>
           if 1 ≤ m && m ≤ 12 && 1 ≤ d && d ≤ monthLen y m then some (y, m, d) else none
         | _, _, _ => none
       else none)

/-- Parse a date string (surrounding whitespace tolerated). -/
def parseDate (s : String) : Option (ℕ × ℕ × ℕ) := parseDateChars (stripChars s.data)

/-- Zero-padded ISO `YYYY-MM-DD` rendering. -/
def isoFormat (t : ℕ × ℕ × ℕ) : String :=
  String.mk (padChars 4 t.1 ++ '-' :: (padChars 2 t.2.1 ++ '-' :: padChars 2 t.2.2))

/-- One cell of `_coerce_dates`: parseable dates become ISO strings,
everything else becomes missing. -/
def dateCoerceCell : Cell → Cell
  | .na => .na
  | .str s => match parseDate s with
    | some t => .str (isoFormat t)
    | none => .na
  | .num _ => .na

/-- One cell of `_safe_float` / `pd.to_numeric(..., errors="coerce")`. -/
def toNumericCell : Cell → Cell
  | .na => .na
  | .num q => .num q
  | .str s => match parseNum s with
    | some q => .num q
    | none => .na

/-! ## Duplicate removal (`df.drop_duplicates()`, keep-first) -/

/-- Keep the first occurrence of each element, dropping the ones already in
`seen`. -/
def dedupFirstAux {α : Type} [DecidableEq α] (seen : List α) : List α → List α
  | [] => []
  | a :: l => if a ∈ seen then dedupFirstAux seen l else a :: dedupFirstAux (a :: seen) l

/-- The `drop_duplicates()` keep-first semantics. -/
def dedupFirst {α : Type} [DecidableEq α] (l : List α) : List α := dedupFirstAux [] l

/-! ## The loader's cleaning pass (`load_csv` after `pd.read_csv`) -/

/-- Python `str.strip` applied to string-typed cells (pandas trims only
object-dtype columns; after `read_csv` the cells of such columns are
strings or missing, which is exactly the `.str` case here). -/
def trimCell : Cell → Cell
  | .str s => .str (pyStrip s)
  | c => c

/-- A row with at least one non-missing cell among the first `w` positions
(the negation of `dropna(how="all")`'s drop condition). -/
def rowNonEmpty (w : ℕ) (r : List Cell) : Bool :=
  (List.range w).any (fun j => !(r.getD j .na).isNa)

/-- The cleaning performed by `load_csv` on the parsed table: drop all-
missing rows, then all-missing columns, trim string cells, and drop exact
duplicate rows keeping the first. -/
def cleanTable (t : Table) : Table :=
  let w := t.cols.length
  let rows₁ := t.rows.filter (rowNonEmpty w)
  let keep := (List.range w).filter (fun j => rows₁.any (fun r => !(r.getD j .na).isNa))
  let cols₂ := keep.map (fun j => t.cols.getD j "")
  let rows₃ := rows₁.map (fun r => keep.map (fun j => trimCell (r.getD j .na)))
  ⟨cols₂, dedupFirst rows₃⟩

/-! ## Schema normalization (`_infer_col`, `normalize_schema`) -/

/-- The `_infer_col` helper: first option whose lowercase form appears among the
lowercased column names.  The Python `lowered` dict comprehension is
last-wins for columns sharing a lowercase form, hence the `reverse`. -/
def inferCol (cols : List String) (options : List String) : Option String :=
  options.findSome? (fun opt => cols.reverse.find? (fun c => strLower c == strLower opt))

def candidatesPatientId : List String := ["patient_id", "patientid", "patient", "mrn", "member_id"]

def candidatesSex : List String := ["sex", "gender", "biological_sex"]

def candidatesTestName : List String := ["test", "test_name", "analyte", "labtest"]

def candidatesValue : List String := ["value", "result", "result_value", "lab_value"]

def candidatesUnits : List String := ["units", "unit", "uom"]

def candidatesDate : List String := ["date", "collection_date", "draw_date", "result_date"]

/-- The canonical-role → actual-column mapping of `normalize_schema`. -/
structure ColMapping where
  patient_id : Option String
  sex : Option String
  test_name : Option String
  value : Option String
  units : Option String
  date : Option String
deriving DecidableEq, Repr

/-- Python word characters (`\w`). -/
def isWordChar (c : Char) : Bool := c.isAlphanum || c == '_'

/-- Does `pat` occur in `hay` starting at `i`, delimited by `\b` word
boundaries on both sides? -/
def wordAt (hay pat : List Char) (i : ℕ) : Bool :=
  ((hay.drop i).take pat.length == pat)
  && (i == 0 || !isWordChar (hay.getD (i - 1) ' '))
  && (i + pat.length == hay.length || !isWordChar (hay.getD (i + pat.length) ' '))

/-- A `re.search` of a `\b pat \b` pattern. -/
def containsWord (hay pat : List Char) : Bool :=
  (List.range (hay.length + 1)).any (wordAt hay pat)

def datePatterns : List String :=
  ["date", "collection_date", "draw_date", "result_date", "reported_date"]

/-- The `DATE_PATTERNS.search(name)` test: the case-insensitive word-bounded
alternation over the date-ish column names. -/
def dateLike (name : String) : Bool :=
  datePatterns.any (fun p => containsWord (strLower name).data p.data)

/-- The `_find_date_columns` helper: name-filtered columns, de-duplicated preserving
order. -/
def findDateColumns (cols : List String) : List String := dedupFirst (cols.filter dateLike)

/-- Apply an ordered list of (column index, cell function) modifications to
a row; this is exactly the sequence of per-column assignments
`df[c] = f(df[c])` performed by `normalize_schema`. -/
def applyMods (mods : List (ℕ × (Cell → Cell))) (r : List Cell) : List Cell :=
  mods.foldl (fun acc p => modifyIdx p.2 p.1 acc) r

/-- The column modifications of `normalize_schema`: date coercion on each
detected date column (in order), then numeric coercion on the resolved
value column.  A name not present among the columns contributes nothing
(the `try`/`except` around `_coerce_dates` cannot fire otherwise). -/
def colMods (cols : List String) (dateCols : List String) (valueCol : Option String) :
    List (ℕ × (Cell → Cell)) :=
  dateCols.filterMap (fun c => (cols.findIdx? (· == c)).map (fun i => (i, dateCoerceCell)))
    ++ (match valueCol with
        | some v => ((cols.findIdx? (· == v)).map (fun i => (i, toNumericCell))).toList
        | none => [])

/-- The `normalize_schema` stage: returns the coerced table, the role mapping and the
list of date-coerced columns. -/
def normalizeSchema (df : Table) : Table × ColMapping × List String :=
  let m : ColMapping :=
    { patient_id := inferCol df.cols candidatesPatientId
      sex := inferCol df.cols candidatesSex
      test_name := inferCol df.cols candidatesTestName
      value := inferCol df.cols candidatesValue
      units := inferCol df.cols candidatesUnits
      date := inferCol df.cols candidatesDate }
  let dateCols₀ := findDateColumns df.cols
  let dateCols := match m.date with
    | some d => if d ∈ dateCols₀ then dateCols₀ else dateCols₀ ++ [d]
    | none => dateCols₀
  (⟨df.cols, df.rows.map (applyMods (colMods df.cols dateCols m.value))⟩, m, dateCols)

/-! ## Sex normalization and reference-range lookup -/

/-- Normalized biological sex. -/
inductive Sex where
  | M : Sex
  | F : Sex
deriving DecidableEq, Repr

/-- Python `str(raw)` on a cell, as used for the test-name and sex values.
Missing cells render as the pandas placeholder (never a range-table key or
a recognized sex token, which is all that matters downstream). -/
def strOfCell : Cell → String
  | .na => "<NA>"
  | .str s => s
  | .num q => toString q

/-- The `_normalize_sex_value` helper: missing → none, else case-insensitive match of
the stripped string against the M/F token sets. -/
def normalizeSexValue (raw : Cell) : Option Sex :=
  match raw with
  | .na => none
  | c =>
    let s := strLower (pyStrip (strOfCell c))
    if s == "m" || s == "male" || s == "man" then some .M
    else if s == "f" || s == "female" || s == "woman" then some .F
    else none

/-- A reference-range table entry: a unisex `(low, high, units)` tuple, or
a sex-keyed dict with optional M/F/default triples. -/
inductive RangeEntry where
  | unisex (low high : ℚ) (units : String) : RangeEntry
  | bySex (m f dflt : Option (ℚ × ℚ × String)) : RangeEntry
deriving DecidableEq, Repr

/-- The `DEMO_RANGES` table (rationals written via `mkRat` so they evaluate
definitionally: `mkRat 27 2 = 13.5`, etc.). -/
def DEMO_RANGES : List (String × RangeEntry) :=
  [("HGB", .bySex (some (mkRat 27 2, mkRat 35 2, "g/dL"))
                  (some (12, mkRat 31 2, "g/dL"))
                  (some (12, 16, "g/dL"))),
   ("WBC", .unisex 4 11 "10^9/L"),
   ("GLU", .unisex 70 99 "mg/dL")]

/-- Range resolution within one entry: a tuple is used directly; for a
dict, a present `M`/`F` key matching the sex wins, else the `default` key,
else nothing. -/
def lookupEntry (entry : RangeEntry) (sex : Option Sex) : Option (ℚ × ℚ × String) :=
  match entry with
  | .unisex low high units => some (low, high, units)
  | .bySex m f dflt =>
    match sex with
    | some .M => m <|> dflt
    | some .F => f <|> dflt
    | none => dflt

/-- The `_lookup_range_for_test_and_sex` helper: `None` when the test is absent from
`DEMO_RANGES`, else resolve within its entry. -/
def lookupRangeForTestAndSex (test : String) (sex : Option Sex) : Option (ℚ × ℚ × String) :=
  ((DEMO_RANGES.find? (fun p => p.1 == test)).map Prod.snd).bind (fun e => lookupEntry e sex)

/-! ## Range flagging (`apply_reference_ranges`) -/

/-- The comparison rule assigning a flag to a numeric value against a
resolved range. -/
def flagOfValue (low high v : ℚ) : String :=
  if v < low then "LOW" else if high < v then "HIGH" else "NORMAL"

/-- The key `str(row.get(test_col, "")).strip().upper()`: the range-table key a row
produces. -/
def testKeyOf (cols : List String) (testCol : String) (r : List Cell) : String :=
  strUpper (pyStrip (strOfCell (getCellD cols r testCol (.str ""))))

/-- The sex `_normalize_sex_value(row.get(sex_col)) if sex_col else None`. -/
def sexNormOf (cols : List String) (sexCol : Option String) (r : List Cell) : Option Sex :=
  match sexCol with
  | some sc => normalizeSexValue (getCellD cols r sc .na)
  | none => none

/-- The body of the per-row loop of `apply_reference_ranges`: from a row,
compute the final `(ref_low, ref_high, ref_units, flag)` cells.  The
initial values (`NA, NA, NA, "UNKNOWN"`) are returned unchanged on the
`continue` paths; on a resolved range with a non-numeric value the three
range cells are populated but the flag write is skipped by the
`try`/`except`, leaving `UNKNOWN`. -/
def flagCells (cols : List String) (testCol valCol : String) (sexCol : Option String)
    (r : List Cell) : Cell × Cell × Cell × Cell :=
  let test := testKeyOf cols testCol r
  let val := getCellD cols r valCol .na
  if val.isNa then (.na, .na, .na, .str "UNKNOWN")
  else
    let sexNorm := sexNormOf cols sexCol r
    match lookupRangeForTestAndSex test sexNorm with
    | none => (.na, .na, .na, .str "UNKNOWN")
    | some (low, high, units) =>
      match val with
      | .num v => (.num low, .num high, .str units, .str (flagOfValue low high v))
      | .str s =>
        match parseNum s with
        | some v => (.num low, .num high, .str units, .str (flagOfValue low high v))
        | none => (.num low, .num high, .str units, .str "UNKNOWN")
      | .na => (.na, .na, .na, .str "UNKNOWN")

/-- The four cells `apply_reference_ranges` leaves in
`ref_low, ref_high, ref_units, flag` for a row, including the unresolved-
mapping no-op case. -/
def flagCells4 (cols : List String) (m : ColMapping) (r : List Cell) : List Cell :=
  match m.test_name, m.value with
  | some tc, some vc =>
    let x := flagCells cols tc vc m.sex r
    [x.1, x.2.1, x.2.2.1, x.2.2.2]
  | _, _ => [.na, .na, .na, .str "UNKNOWN"]

/-- The `apply_reference_ranges` stage: copy the frame, install the four derived
columns with their sentinel values, and (when both the `test_name` and
`value` roles resolved) fill them row by row. -/
def applyReferenceRanges (df : Table) (m : ColMapping) : Table :=
  let df₁ := setConstCol (setConstCol (setConstCol (setConstCol df
    "ref_low" .na) "ref_high" .na) "ref_units" .na) "flag" (.str "UNKNOWN")
  match m.test_name, m.value with
  | some tc, some vc =>
    ⟨df₁.cols, df₁.rows.map (fun r =>
      let x := flagCells df₁.cols tc vc m.sex r
      setCellByName df₁.cols (setCellByName df₁.cols (setCellByName df₁.cols
        (setCellByName df₁.cols r "ref_low" x.1) "ref_high" x.2.1)
        "ref_units" x.2.2.1) "flag" x.2.2.2)⟩
  | _, _ => df₁

/-! ## Aggregation (`summarize`) -/

/-- One row of the tidy summary table. -/
structure SummaryRow where
  group_type : String
  group_value : Cell
  count : ℕ
  mean : Option ℚ
  minv : Option ℚ
  maxv : Option ℚ
deriving DecidableEq, Repr

/-- The numeric payload of a cell. -/
def numOf : Cell → Option ℚ
  | .num q => some q
  | _ => none

/-- Rational addition written through `mkRat` so that it evaluates
definitionally (`Rat.add` is `irreducible`); equal to `a + b`. -/
def qAdd (a b : ℚ) : ℚ := mkRat (a.num * b.den + b.num * a.den) (a.den * b.den)

/-- Division `(sum l) / n` through `mkRat`; used for the mean. -/
def qDivNat (a : ℚ) (n : ℕ) : ℚ := mkRat a.num (a.den * n)

/-- Mean of a list of rationals (`Series.mean()` over the non-missing
values); `none` on the empty list (pandas `NaN`). -/
def meanOf (l : List ℚ) : Option ℚ :=
  if l.isEmpty then none else some (qDivNat (l.foldl qAdd 0) l.length)

/-- Lexicographic (code-point) comparison of character lists, the order
pandas uses to sort string group keys. -/
def charListLt : List Char → List Char → Bool
  | [], [] => false
  | [], _ :: _ => true
  | _ :: _, [] => false
  | a :: as, b :: bs =>
    if a.toNat < b.toNat then true
    else if b.toNat < a.toNat then false
    else charListLt as bs

/-- Total order used for `groupby`'s sorted keys: missing < numbers <
strings, numerically / lexicographically within a kind.  (pandas raises on
mixed-type keys; within one dtype this is its ascending sort.) -/
def cellLe (a b : Cell) : Bool :=
  match a, b with
  | .num p, .num q => decide (p ≤ q)
  | .str s, .str t => charListLt s.data t.data || s == t
  | .na, _ => true
  | _, .na => false
  | .num _, .str _ => true
  | .str _, .num _ => false

instance cellLeDecidable : DecidableRel (fun a b : Cell => cellLe a b = true) :=
  fun a b => inferInstanceAs (Decidable (cellLe a b = true))

/-- The group keys `df.groupby(col)` iterates: distinct non-missing values
in ascending order.  `dropna=True` being the pandas default, missing keys
are EXCLUDED here — this is the crux of the missing-bucket claim. -/
def groupKeys (cells : List Cell) : List Cell :=
  List.insertionSort (fun a b => cellLe a b = true)
    (dedupFirst (cells.filter (fun c => !c.isNa)))

/-- The summary rows produced for one group-by column. -/
def summarizeGroup (df : Table) (valOpt : Option String) (col : String) : List SummaryRow :=
  let colCells := df.rows.map (fun r => getCellD df.cols r col .na)
  (groupKeys colCells).map (fun k =>
    let group := df.rows.filter (fun r => getCellD df.cols r col .na == k)
    let gv := if k.isNa then Cell.str "(missing)" else k
    match valOpt with
    | some v =>
      if v ∈ df.cols then
        let vals := group.map (fun r => getCellD df.cols r v .na)
        let nums := vals.filterMap numOf
        { group_type := col, group_value := gv,
          count := (vals.filter (fun c => !c.isNa)).length,
          mean := meanOf nums, minv := nums.min?, maxv := nums.max? }
      else
        { group_type := col, group_value := gv, count := group.length,
          mean := none, minv := none, maxv := none }
    | none =>
      { group_type := col, group_value := gv, count := group.length,
        mean := none, minv := none, maxv := none })

/-- The group-by argument resolution of `summarize`: canonical role name
first, then literal column name, skipping unresolvable entries,
de-duplicated preserving order. -/
def canonLookup (m : ColMapping) (g : String) : Option String :=
  match g with
  | "patient_id" => m.patient_id
  | "sex" => m.sex
  | "test_name" => m.test_name
  | "value" => m.value
  | "units" => m.units
  | "date" => m.date
  | _ => none

def resolveGroupCols (df : Table) (m : ColMapping) (groupBy : List String) : List String :=
  groupBy.foldl (fun acc g =>
    let actual := match canonLookup m g with
      | some a => some a
      | none => if g ∈ df.cols then some g else none
    match actual with
    | some a => if a ∈ acc then acc else acc ++ [a]
    | none => acc) []

/-- The `summarize` stage: the overall row followed by the grouped rows of each
resolved group-by column. -/
def summarize (df : Table) (m : ColMapping) (groupBy : List String) : List SummaryRow :=
  let overallStats : Option ℚ × Option ℚ × Option ℚ :=
    match m.value with
    | some v =>
      if v ∈ df.cols then
        let nums := df.rows.filterMap (fun r => numOf (toNumericCell (getCellD df.cols r v .na)))
        (meanOf nums, nums.min?, nums.max?)
      else (none, none, none)
    | none => (none, none, none)
  let overall : SummaryRow :=
    { group_type := "overall", group_value := .str "ALL", count := df.rows.length,
      mean := overallStats.1, minv := overallStats.2.1, maxv := overallStats.2.2 }
  overall :: (resolveGroupCols df m groupBy).flatMap (summarizeGroup df m.value)

/-! ## Loader errors and the load stage of `main` -/

/-- The load-stage error taxonomy: `FileNotFoundError` (NotFound) and
`ValueError` on a non-`.csv` path (FormatError). -/
inductive LoadError where
  | notFound : LoadError
  | formatError : LoadError
deriving DecidableEq, Repr

/-- The input as the loader observes it: whether the path exists, its
suffix, and the table `pd.read_csv` would parse from it. -/
structure InputFile where
  present : Bool
  suffix : String
  raw : Table
deriving Repr

/-- The `load_csv` loader: existence check, extension check, then read + clean. -/
def loadCsv (f : InputFile) : Except LoadError Table :=
  if !f.present then .error .notFound
  else if strLower f.suffix != ".csv" then .error .formatError
  else .ok (cleanTable f.raw)

/-- The load stage of `main`: any loader exception aborts the run with
exit code 2 and no table. -/
def mainLoadStage (f : InputFile) : Except ℕ Table :=
  match loadCsv f with
  | .error _ => .error 2
  | .ok t => .ok t

/-! ## The full pipeline and the idempotence experiment -/

/-- Names of the four derived columns added by the flagger. -/
def flagColNames : List String := ["ref_low", "ref_high", "ref_units", "flag"]

/-- Remove the derived flag columns (the "stripping" of the idempotence
claim). -/
def stripFlagCols (t : Table) : Table :=
  let keep := (List.range t.cols.length).filter (fun j => !(flagColNames.contains (t.cols.getD j "")))
  ⟨keep.map (fun j => t.cols.getD j ""), t.rows.map (fun r => keep.map (fun j => r.getD j .na))⟩

/-- clean → normalize → flag, as `main` chains them on a loaded table. -/
def pipelineFlagged (t : Table) : Table :=
  let c := cleanTable t
  let p := normalizeSchema c
  applyReferenceRanges p.1 p.2.1

/-- The summary `main` computes for a loaded table and group-by list. -/
def pipelineSummary (t : Table) (groupBy : List String) : List SummaryRow :=
  let c := cleanTable t
  let p := normalizeSchema c
  summarize (applyReferenceRanges p.1 p.2.1) p.2.1 groupBy

/-! ## Concrete instances used in the claim statements -/

/-- Mapping resolving only `test_name → "test"` and `value → "value"`. -/
def glucoseMapping : ColMapping := ⟨none, none, some "test", some "value", none, none⟩

/-- Five GLU records at the boundary values of the (70, 99) range. -/
def glucoseTable : Table :=
  ⟨["test", "value"],
   [[.str "GLU", .num (mkRat 699 10)],
    [.str "GLU", .num 70],
    [.str "GLU", .num 85],
    [.str "GLU", .num 99],
    [.str "GLU", .num (mkRat 991 10)]]⟩

/-- Mapping additionally resolving `sex → "sex"`. -/
def hgbMapping : ColMapping := ⟨none, some "sex", some "test", some "value", none, none⟩

/-- A single HGB record with value 13.0 and the given sex cell. -/
def hgbTable (sx : Cell) : Table := ⟨["test", "value", "sex"], [[.str "HGB", .num 13, sx]]⟩

/-- A GLU record whose value cell is the non-numeric string "abc". -/
def strValueTable : Table := ⟨["test", "value"], [[.str "GLU", .str "abc"]]⟩

/-- 10 records; the `grp` column has 3 distinct values and one missing. -/
def missingGroupTable : Table :=
  ⟨["test", "value", "grp"],
   [[.str "GLU", .num 80, .str "a"], [.str "GLU", .num 81, .str "a"], [.str "GLU", .num 82, .str "a"],
    [.str "GLU", .num 83, .str "b"], [.str "GLU", .num 84, .str "b"], [.str "GLU", .num 85, .str "b"],
    [.str "GLU", .num 86, .str "c"], [.str "GLU", .num 87, .str "c"], [.str "GLU", .num 88, .str "c"],
    [.str "GLU", .num 89, .na]]⟩

/-- The all-unresolved mapping. -/
def emptyMapping : ColMapping := ⟨none, none, none, none, none, none⟩

/-- A table that already owns a column named `flag`. -/
def flagOwnerTable : Table := ⟨["flag"], [[.str "LOW"]]⟩

/-- Two raw records distinct as text but equal after numeric coercion
("85" vs "85.0"). -/
def collapsingTable : Table :=
  ⟨["test", "value"], [[.str "GLU", .str "85"], [.str "GLU", .str "85.0"]]⟩

/-- A one-record table on which the pipeline is genuinely idempotent. -/
def idemWitnessTable : Table := ⟨["test", "value"], [[.str "GLU", .str "85"]]⟩

/-- A raw table exercising every cleaning rule: an all-missing row, an
all-missing column, padded strings, and a duplicate row. -/
def rawDirtyTable : Table :=
  ⟨["a", "b"], [[.str " x ", .na], [.na, .na], [.str " x ", .na]]⟩

/-- The empty parsed table, for loader-error witnesses. -/
def emptyRaw : Table := ⟨[], []⟩

/-! # Theorems

First generic helper lemmas about the embedded operations, then one
theorem per claim (with witnesses and counterexamples where applicable). -/

theorem dedupFirstAux_subset {α : Type} [DecidableEq α] (seen : List α) (l : List α) :
    ∀ x ∈ dedupFirstAux seen l, x ∈ l := by
  induction l generalizing seen with
  | nil => intro x hx; exact absurd hx (by simp [dedupFirstAux])
  | cons a t ih =>
    intro x hx
    by_cases ha : a ∈ seen
    · simp only [dedupFirstAux, if_pos ha] at hx
      exact List.mem_cons_of_mem _ (ih seen x hx)
    · simp only [dedupFirstAux, if_neg ha, List.mem_cons] at hx
      rcases hx with h | h
      · exact h ▸ List.mem_cons_self _ _
      · exact List.mem_cons_of_mem _ (ih _ x h)

theorem dedupFirstAux_mem {α : Type} [DecidableEq α] (seen : List α) (l : List α) :
    ∀ x ∈ l, x ∉ seen → x ∈ dedupFirstAux seen l := by
  induction l generalizing seen with
  | nil => intro x hx; exact absurd hx (List.not_mem_nil x)
  | cons a t ih =>
    intro x hx hns
    rcases List.mem_cons.1 hx with rfl | hxt
    · by_cases ha : x ∈ seen
      · exact absurd ha hns
      · simp [dedupFirstAux, if_neg ha]
    · by_cases ha : a ∈ seen
      · simpa [dedupFirstAux, if_pos ha] using ih seen x hxt hns
      · simp only [dedupFirstAux, if_neg ha, List.mem_cons]
        by_cases hxa : x = a
        · exact Or.inl hxa
        · exact Or.inr (ih _ x hxt (by simp [hns, hxa]))

theorem dedupFirstAux_not_seen {α : Type} [DecidableEq α] (seen : List α) (l : List α) :
    ∀ x ∈ dedupFirstAux seen l, x ∉ seen := by
  induction l generalizing seen with
  | nil => intro x hx; exact absurd hx (by simp [dedupFirstAux])
  | cons a t ih =>
    intro x hx
    by_cases ha : a ∈ seen
    · simp only [dedupFirstAux, if_pos ha] at hx
      exact ih seen x hx
    · simp only [dedupFirstAux, if_neg ha, List.mem_cons] at hx
      rcases hx with rfl | h
      · exact ha
      · intro hs
        exact ih _ x h (List.mem_cons_of_mem _ hs)

theorem dedupFirstAux_nodup {α : Type} [DecidableEq α] (seen : List α) (l : List α) :
    (dedupFirstAux seen l).Nodup := by
  induction l generalizing seen with
  | nil => simp [dedupFirstAux]
  | cons a t ih =>
    by_cases ha : a ∈ seen
    · simpa [dedupFirstAux, if_pos ha] using ih seen
    · simp only [dedupFirstAux, if_neg ha]
      refine List.nodup_cons.2 ⟨fun hmem => ?_, ih _⟩
      exact dedupFirstAux_not_seen _ _ a hmem (List.mem_cons_self _ _)

theorem dedupFirst_subset {α : Type} [DecidableEq α] (l : List α) :
    ∀ x ∈ dedupFirst l, x ∈ l := dedupFirstAux_subset [] l

theorem dedupFirst_mem {α : Type} [DecidableEq α] (l : List α) :
    ∀ x ∈ l, x ∈ dedupFirst l :=
  fun x hx => dedupFirstAux_mem [] l x hx (List.not_mem_nil x)

theorem dedupFirst_nodup {α : Type} [DecidableEq α] (l : List α) :
    (dedupFirst l).Nodup := dedupFirstAux_nodup [] l

theorem flagOfValue_ne_unknown (low high v : ℚ) : flagOfValue low high v ≠ "UNKNOWN" := by
  unfold flagOfValue
  split_ifs <;> decide

theorem flagOfValue_normal_iff (low high v : ℚ) :
    flagOfValue low high v = "NORMAL" ↔ low ≤ v ∧ v ≤ high := by
  unfold flagOfValue
  split_ifs with h1 h2
  · simp only [String.reduceEq, false_iff]
    intro h
    exact absurd h1 (not_lt.2 h.1)
  · simp only [String.reduceEq, false_iff]
    intro h
    exact absurd h2 (not_lt.2 h.2)
  · simp only [true_iff]
    exact ⟨not_lt.1 h1, not_lt.1 h2⟩

theorem flagOfValue_low_iff (low high v : ℚ) :
    flagOfValue low high v = "LOW" ↔ v < low := by
  unfold flagOfValue
  split_ifs with h1 h2
  · simp [h1]
  · simp only [String.reduceEq, false_iff]
    exact h1
  · simp only [String.reduceEq, false_iff]
    exact h1

theorem flagOfValue_high_iff (low high v : ℚ) (hlh : low ≤ high) :
    flagOfValue low high v = "HIGH" ↔ high < v := by
  unfold flagOfValue
  split_ifs with h1 h2
  · simp only [String.reduceEq, false_iff]
    intro h
    exact absurd (lt_trans h h1) (not_lt.2 hlh)
  · simp [h2]
  · simp only [String.reduceEq, false_iff]
    exact h2

theorem lookupRange_le (test : String) (sex : Option Sex) (low high : ℚ) (u : String)
    (h : lookupRangeForTestAndSex test sex = some (low, high, u)) : low ≤ high := by
  unfold lookupRangeForTestAndSex at h
  cases hf : DEMO_RANGES.find? (fun p => p.1 == test) with
  | none => rw [hf] at h; exact absurd h (by simp)
  | some p =>
    rw [hf] at h
    have hp := List.mem_of_find?_eq_some hf
    simp only [DEMO_RANGES, List.mem_cons, List.not_mem_nil, or_false] at hp
    have step : forall (lo hi : ℚ) (uu : String),
        some (lo, hi, uu) = some (low, high, u) → lo ≤ hi → low ≤ high := by
      intro lo hi uu he hle
      injection he with h1
      injection h1 with ha hb
      injection hb with hb hc
      subst ha; subst hb
      exact hle
    rcases hp with rfl | rfl | rfl
    · rcases sex with _ | sx
      · exact step _ _ _ h (by decide)
      · cases sx
        · exact step _ _ _ h (by decide)
        · exact step _ _ _ h (by decide)
    · exact step _ _ _ h (by decide)
    · exact step _ _ _ h (by decide)

theorem flagCells_na (cols : List String) (tc vc : String) (sc : Option String) (r : List Cell)
    (h : getCellD cols r vc .na = .na) :
    flagCells cols tc vc sc r = (.na, .na, .na, .str "UNKNOWN") := by
  simp [flagCells, h, Cell.isNa]

theorem flagCells_noRange (cols : List String) (tc vc : String) (sc : Option String)
    (r : List Cell)
    (h : lookupRangeForTestAndSex (testKeyOf cols tc r) (sexNormOf cols sc r) = none) :
    flagCells cols tc vc sc r = (.na, .na, .na, .str "UNKNOWN") := by
  cases hv : getCellD cols r vc .na <;> simp [flagCells, hv, h, Cell.isNa]

theorem flagCells_resolved_num (cols : List String) (tc vc : String) (sc : Option String)
    (r : List Cell) (low high : ℚ) (u : String) (v : ℚ)
    (hv : getCellD cols r vc .na = .num v)
    (h : lookupRangeForTestAndSex (testKeyOf cols tc r) (sexNormOf cols sc r) = some (low, high, u)) :
    flagCells cols tc vc sc r = (.num low, .num high, .str u, .str (flagOfValue low high v)) := by
  simp [flagCells, hv, h, Cell.isNa]

theorem flagCells_resolved_nonnum (cols : List String) (tc vc : String) (sc : Option String)
    (r : List Cell) (low high : ℚ) (u : String) (s : String)
    (hv : getCellD cols r vc .na = .str s) (hs : parseNum s = none)
    (h : lookupRangeForTestAndSex (testKeyOf cols tc r) (sexNormOf cols sc r) = some (low, high, u)) :
    flagCells cols tc vc sc r = (.num low, .num high, .str u, .str "UNKNOWN") := by
  simp [flagCells, hv, h, hs, Cell.isNa]

/-- Claim C1: for every record whose test resolves to a reference range
`(low, high, units)` and whose value is numeric, the assigned flag is
NORMAL iff `low ≤ value ≤ high`, LOW iff `value < low`, HIGH iff
`value > high` (every resolvable range satisfies `low ≤ high`); and with
range (70, 99) the values 69.9, 70, 85, 99, 99.1 receive flags LOW,
NORMAL, NORMAL, NORMAL, HIGH — boundary values are NORMAL. -/
theorem C1_flag_boundary :
    (∀ test sex low high u, lookupRangeForTestAndSex test sex = some (low, high, u) → low ≤ high)
    ∧ (∀ low high v : ℚ, low ≤ high →
        ((flagOfValue low high v = "NORMAL" ↔ low ≤ v ∧ v ≤ high)
         ∧ (flagOfValue low high v = "LOW" ↔ v < low)
         ∧ (flagOfValue low high v = "HIGH" ↔ high < v)))
    ∧ (∀ (cols : List String) (tc vc : String) (sc : Option String) (r : List Cell)
        (low high : ℚ) (u : String) (v : ℚ),
        getCellD cols r vc .na = .num v →
        lookupRangeForTestAndSex (testKeyOf cols tc r) (sexNormOf cols sc r) = some (low, high, u) →
        flagCells cols tc vc sc r = (.num low, .num high, .str u, .str (flagOfValue low high v)))
    ∧ (applyReferenceRanges glucoseTable glucoseMapping).rows.map (fun r => r.getD 5 .na)
        = [.str "LOW", .str "NORMAL", .str "NORMAL", .str "NORMAL", .str "HIGH"] :=
  ⟨fun test sex low high u h => lookupRange_le test sex low high u h,
   fun low high v hlh =>
     ⟨flagOfValue_normal_iff low high v, flagOfValue_low_iff low high v,
      flagOfValue_high_iff low high v hlh⟩,
   fun cols tc vc sc r low high u v hv h =>
     flagCells_resolved_num cols tc vc sc r low high u v hv h,
   by decide⟩

theorem C1_flag_boundary_witness :
    ((70 : ℚ) ≤ 99)
    ∧ (flagOfValue 70 99 85 = "NORMAL" ↔ (70 : ℚ) ≤ 85 ∧ (85 : ℚ) ≤ 99)
    ∧ flagCells ["test", "value"] "test" "value" none [.str "GLU", .num 85]
        = (.num 70, .num 99, .str "mg/dL", .str (flagOfValue 70 99 85)) :=
  ⟨C1_flag_boundary.1 "GLU" none 70 99 "mg/dL" (by decide),
   (C1_flag_boundary.2.1 70 99 85 (by decide)).1,
   C1_flag_boundary.2.2.1 ["test", "value"] "test" "value" none [.str "GLU", .num 85]
     70 99 "mg/dL" 85 (by decide) (by decide)⟩

/-- Claim C3: range resolution is a function of (uppercase-trimmed test
name, normalized sex): a unisex tuple is used directly; a sex-keyed entry
with the normalized sex present uses that triple, falling back to the
`default` triple, else no range; a test absent from the table resolves to
nothing.  Concretely: HGB value 13.0 flags LOW against (13.5, 17.5) for
sex "Male", NORMAL against (12.0, 15.5) for "Female", and NORMAL against
the default (12.0, 16.0) when sex is missing or unrecognized. -/
theorem C3_range_resolution :
    (∀ (low high : ℚ) (u : String) (s : Option Sex),
       lookupEntry (.unisex low high u) s = some (low, high, u))
    ∧ (∀ t f d, lookupEntry (.bySex (some t) f d) (some .M) = some t)
    ∧ (∀ t m d, lookupEntry (.bySex m (some t) d) (some .F) = some t)
    ∧ (∀ f d, lookupEntry (.bySex none f (some d)) (some .M) = some d)
    ∧ (∀ m d, lookupEntry (.bySex m none (some d)) (some .F) = some d)
    ∧ (∀ m f d, lookupEntry (.bySex m f d) none = d)
    ∧ (∀ f, lookupEntry (.bySex none f none) (some .M) = none)
    ∧ (∀ m, lookupEntry (.bySex m none none) (some .F) = none)
    ∧ (∀ sex, lookupRangeForTestAndSex "ZZZ" sex = none)
    ∧ (applyReferenceRanges (hgbTable (.str "Male")) hgbMapping).rows
        = [[.str "HGB", .num 13, .str "Male",
            .num (mkRat 27 2), .num (mkRat 35 2), .str "g/dL", .str "LOW"]]
    ∧ (applyReferenceRanges (hgbTable (.str "Female")) hgbMapping).rows
        = [[.str "HGB", .num 13, .str "Female",
            .num 12, .num (mkRat 31 2), .str "g/dL", .str "NORMAL"]]
    ∧ (applyReferenceRanges (hgbTable .na) hgbMapping).rows
        = [[.str "HGB", .num 13, .na, .num 12, .num 16, .str "g/dL", .str "NORMAL"]]
    ∧ (applyReferenceRanges (hgbTable (.str "X")) hgbMapping).rows
        = [[.str "HGB", .num 13, .str "X", .num 12, .num 16, .str "g/dL", .str "NORMAL"]] := by
  refine ⟨fun low high u s => rfl, fun t f d => rfl, fun t m d => rfl, fun f d => rfl,
    fun m d => rfl, fun m f d => rfl, fun f => rfl, fun m => rfl, fun sex => ?_,
    by decide, by decide, by decide, by decide⟩
  cases sex with
  | none => rfl
  | some sx => cases sx <;> rfl

/-- Claim C2 (code behavior at the failing input): grouping the 10-record
dataset by a column with 3 distinct values and one missing value yields 1
overall row plus only 3 grouped rows; no `(missing)` bucket appears and
the record with the missing group value is silently dropped from the
grouped statistics (`df.groupby` defaults to `dropna=True`, so the
`"(missing)"` branch in the source is dead code). -/
theorem C2_missing_bucket_dropped :
    summarize missingGroupTable glucoseMapping ["grp"]
      = [⟨"overall", .str "ALL", 10, some (mkRat 169 2), some 80, some 89⟩,
         ⟨"grp", .str "a", 3, some 81, some 80, some 82⟩,
         ⟨"grp", .str "b", 3, some 84, some 83, some 85⟩,
         ⟨"grp", .str "c", 3, some 87, some 86, some 88⟩]
    ∧ (summarize missingGroupTable glucoseMapping ["grp"]).filter
        (fun row => row.group_value == Cell.str "(missing)") = []
    ∧ ((summarize missingGroupTable glucoseMapping ["grp"]).filter
        (fun row => row.group_type == "grp")).length = 3 := by
  decide

/-- Claim C5 (counterexample): a record with a known test (GLU) and the
non-numeric, non-missing value "abc" is flagged UNKNOWN, yet its
`ref_low`/`ref_high`/`ref_units` fields are populated (the source sets
them before the `float(val)` conversion can fail), refuting "every record
flagged UNKNOWN has empty range fields". -/
theorem C5_counterexample :
    (applyReferenceRanges strValueTable glucoseMapping).rows
      = [[.str "GLU", .str "abc", .num 70, .num 99, .str "mg/dL", .str "UNKNOWN"]]
    ∧ parseNum "abc" = none
    ∧ getCellD (applyReferenceRanges strValueTable glucoseMapping).cols
        ((applyReferenceRanges strValueTable glucoseMapping).rows.getD 0 []) "flag" .na
        = .str "UNKNOWN"
    ∧ getCellD (applyReferenceRanges strValueTable glucoseMapping).cols
        ((applyReferenceRanges strValueTable glucoseMapping).rows.getD 0 []) "ref_low" .na
        ≠ .na := by
  decide

/-- Claim C5 (amended): restricted to records whose value cell is missing
or numeric — which normalization guarantees for the pipeline's own data —
a record is flagged UNKNOWN iff its range fields are empty; and whenever
no range resolved or the value is missing, the flag is UNKNOWN with all
range fields empty.  (A non-missing, non-numeric value with a resolved
range is the one exception: flag UNKNOWN with populated range fields.) -/
theorem C5_unknown_empty_amended (cols : List String) (tc vc : String) (sc : Option String)
    (r : List Cell)
    (hv : getCellD cols r vc .na = .na ∨ ∃ q, getCellD cols r vc .na = .num q) :
    ((flagCells cols tc vc sc r).2.2.2 = .str "UNKNOWN"
      ↔ (flagCells cols tc vc sc r).1 = .na ∧ (flagCells cols tc vc sc r).2.1 = .na
        ∧ (flagCells cols tc vc sc r).2.2.1 = .na)
    ∧ (getCellD cols r vc .na = .na
        ∨ lookupRangeForTestAndSex (testKeyOf cols tc r) (sexNormOf cols sc r) = none →
       flagCells cols tc vc sc r = (.na, .na, .na, .str "UNKNOWN")) := by
  constructor
  · rcases hv with hna | ⟨q, hq⟩
    · rw [flagCells_na cols tc vc sc r hna]
      simp
    · cases hlk : lookupRangeForTestAndSex (testKeyOf cols tc r) (sexNormOf cols sc r) with
      | none =>
        rw [flagCells_noRange cols tc vc sc r hlk]
        simp
      | some t =>
        obtain ⟨low, high, u⟩ := t
        rw [flagCells_resolved_num cols tc vc sc r low high u q hq hlk]
        refine iff_of_false ?_ ?_
        · intro hfl
          simp only [Cell.str.injEq] at hfl
          exact flagOfValue_ne_unknown low high q hfl
        · rintro ⟨hcon, -⟩
          simp at hcon
  · rintro (hna | hlk)
    · exact flagCells_na cols tc vc sc r hna
    · exact flagCells_noRange cols tc vc sc r hlk

theorem C5_amended_witness :
    (flagCells ["test", "value"] "test" "value" none [.str "GLU", .num 85]).2.2.2 = .str "UNKNOWN"
      ↔ (flagCells ["test", "value"] "test" "value" none [.str "GLU", .num 85]).1 = .na
        ∧ (flagCells ["test", "value"] "test" "value" none [.str "GLU", .num 85]).2.1 = .na
        ∧ (flagCells ["test", "value"] "test" "value" none [.str "GLU", .num 85]).2.2.1 = .na :=
  (C5_unknown_empty_amended ["test", "value"] "test" "value" none [.str "GLU", .num 85]
    (Or.inr ⟨85, by decide⟩)).1

/-- Claim C10 (counterexample): on a dataframe that already owns a column
named `flag` (value "LOW"), `apply_reference_ranges` overwrites that
original column in place with "UNKNOWN", so the output does NOT preserve
the values of every original column. -/
theorem C10_counterexample :
    applyReferenceRanges flagOwnerTable emptyMapping
      = ⟨["flag", "ref_low", "ref_high", "ref_units"], [[.str "UNKNOWN", .na, .na, .na]]⟩
    ∧ getCellD flagOwnerTable.cols (flagOwnerTable.rows.getD 0 []) "flag" .na = .str "LOW"
    ∧ getCellD (applyReferenceRanges flagOwnerTable emptyMapping).cols
        ((applyReferenceRanges flagOwnerTable emptyMapping).rows.getD 0 []) "flag" .na
        ≠ .str "LOW" := by
  decide

/-- Claim C8: loading fails with NotFound exactly when the input path does
not exist; with FormatError exactly when the path exists but is not
recognized as CSV (by suffix); either failure aborts the load stage of
`main` with exit code 2 and no table, and a table is produced exactly when
neither error occurs. -/
theorem C8_load_errors (f : InputFile) :
    (loadCsv f = .error .notFound ↔ f.present = false)
    ∧ (loadCsv f = .error .formatError ↔ f.present = true ∧ strLower f.suffix ≠ ".csv")
    ∧ (∀ e, loadCsv f = .error e → mainLoadStage f = .error 2)
    ∧ (f.present = true → strLower f.suffix = ".csv" →
        loadCsv f = .ok (cleanTable f.raw) ∧ mainLoadStage f = .ok (cleanTable f.raw)) := by
  obtain ⟨p, suf, raw⟩ := f
  cases p with
  | false =>
    refine ⟨by simp [loadCsv], by simp [loadCsv], fun e he => ?_, by simp⟩
    simp only [loadCsv, Bool.not_false, if_pos rfl] at he ⊢
    simp [mainLoadStage, loadCsv]
  | true =>
    by_cases hs : strLower suf = ".csv"
    · refine ⟨by simp [loadCsv, hs], by simp [loadCsv, hs], fun e he => ?_, fun _ _ => ?_⟩
      · simp [loadCsv, hs] at he
      · exact ⟨by simp [loadCsv, hs], by simp [mainLoadStage, loadCsv, hs]⟩
    · refine ⟨by simp [loadCsv, hs], by simp [loadCsv, hs], fun e he => ?_, fun _ hc => absurd hc hs⟩
      simp [mainLoadStage, loadCsv, hs]

theorem C8_load_errors_witness :
    (loadCsv ⟨false, ".csv", emptyRaw⟩ = .error .notFound)
    ∧ mainLoadStage ⟨true, ".txt", emptyRaw⟩ = .error 2
    ∧ mainLoadStage ⟨true, ".CSV", rawDirtyTable⟩ = .ok (cleanTable rawDirtyTable) :=
  ⟨(C8_load_errors ⟨false, ".csv", emptyRaw⟩).1.mpr rfl,
   (C8_load_errors ⟨true, ".txt", emptyRaw⟩).2.2.1 .formatError
     ((C8_load_errors ⟨true, ".txt", emptyRaw⟩).2.1.mpr ⟨rfl, by decide⟩),
   ((C8_load_errors ⟨true, ".CSV", rawDirtyTable⟩).2.2.2 rfl (by decide)).2⟩

theorem inferCol_none_iff (cols opts : List String) :
    inferCol cols opts = none ↔ ∀ o ∈ opts, ∀ c ∈ cols, strLower c ≠ strLower o := by
  unfold inferCol
  induction opts with
  | nil => simp
  | cons o rest ih =>
    rw [List.findSome?_cons]
    cases hf : cols.reverse.find? (fun c => strLower c == strLower o) with
    | some c =>
      refine iff_of_false (by simp) ?_
      intro hall
      have hc := List.find?_some hf
      have hm := List.mem_of_find?_eq_some hf
      exact hall o (List.mem_cons_self o rest) c (List.mem_reverse.1 hm) (by simpa using hc)
    | none =>
      rw [ih]
      constructor
      · intro hall o' ho' c hc
        rcases List.mem_cons.1 ho' with rfl | ho'
        · have := List.find?_eq_none.1 hf c (List.mem_reverse.2 hc)
          simpa using this
        · exact hall o' ho' c hc
      · intro hall o' ho' c hc
        exact hall o' (List.mem_cons_of_mem o ho') c hc

theorem inferCol_some (cols opts : List String) (c : String) (h : inferCol cols opts = some c) :
    c ∈ cols ∧ ∃ pre o post, opts = pre ++ o :: post ∧ strLower c = strLower o
      ∧ ∀ o' ∈ pre, ∀ c' ∈ cols, strLower c' ≠ strLower o' := by
  unfold inferCol at h
  induction opts with
  | nil => simp at h
  | cons o rest ih =>
    rw [List.findSome?_cons] at h
    cases hf : cols.reverse.find? (fun x => strLower x == strLower o) with
    | some c' =>
      rw [hf] at h
      injection h with h'
      subst h'
      refine ⟨List.mem_reverse.1 (List.mem_of_find?_eq_some hf), [], o, rest, rfl, ?_, by simp⟩
      have := List.find?_some hf
      simpa using this
    | none =>
      rw [hf] at h
      obtain ⟨hmem, pre, o', post, heq, hlow, hpre⟩ := ih h
      refine ⟨hmem, o :: pre, o', post, by rw [heq]; rfl, hlow, ?_⟩
      intro o'' ho'' c' hc'
      rcases List.mem_cons.1 ho'' with rfl | ho''
      · have := List.find?_eq_none.1 hf c' (List.mem_reverse.2 hc')
        simpa using this
      · exact hpre o'' ho'' c' hc'

/-- Claim C4: each canonical role resolves to the first candidate in its
priority list matching an actual column case-insensitively, and to none
when no candidate matches; "PatientID", "patient_id" and "MRN" all resolve
to the `patient_id` role, and an unresolved role is handled downstream
without raising (the flagger degrades to all-UNKNOWN on such data). -/
theorem C4_column_role_resolution :
    (∀ cols opts : List String,
       inferCol cols opts = none ↔ ∀ o ∈ opts, ∀ c ∈ cols, strLower c ≠ strLower o)
    ∧ (∀ (cols opts : List String) (c : String), inferCol cols opts = some c →
         c ∈ cols ∧ ∃ pre o post, opts = pre ++ o :: post ∧ strLower c = strLower o
           ∧ ∀ o' ∈ pre, ∀ c' ∈ cols, strLower c' ≠ strLower o')
    ∧ (normalizeSchema ⟨["PatientID"], []⟩).2.1.patient_id = some "PatientID"
    ∧ (normalizeSchema ⟨["patient_id"], []⟩).2.1.patient_id = some "patient_id"
    ∧ (normalizeSchema ⟨["MRN"], []⟩).2.1.patient_id = some "MRN"
    ∧ (normalizeSchema ⟨["foo", "bar"], []⟩).2.1 = emptyMapping
    ∧ (applyReferenceRanges ⟨["foo", "bar"], [[.str "x", .str "y"]]⟩
         (normalizeSchema ⟨["foo", "bar"], [[.str "x", .str "y"]]⟩).2.1).rows
        = [[.str "x", .str "y", .na, .na, .na, .str "UNKNOWN"]] :=
  ⟨inferCol_none_iff, inferCol_some, by decide, by decide, by decide, by decide, by decide⟩

theorem C4_column_role_resolution_witness :
    "PatientID" ∈ ["PatientID"]
    ∧ ∃ pre o post, candidatesPatientId = pre ++ o :: post
        ∧ strLower "PatientID" = strLower o
        ∧ ∀ o' ∈ pre, ∀ c' ∈ ["PatientID"], strLower c' ≠ strLower o' :=
  C4_column_role_resolution.2.1 ["PatientID"] candidatesPatientId "PatientID" (by decide)

theorem findIdx?_lt_length {α : Type} {p : α → Bool} {l : List α} {i : ℕ}
    (h : l.findIdx? p = some i) : i < l.length :=
  (List.findIdx?_eq_some_iff_findIdx_eq.1 h).1

theorem findIdx?_none_of_not_mem {l : List String} {name : String} (h : name ∉ l) :
    l.findIdx? (· == name) = none :=
  List.findIdx?_eq_none_iff.2 (fun x hx => beq_eq_false_iff_ne.2 (fun hxy => h (hxy ▸ hx)))

theorem setConstCol_absent (t : Table) (name : String) (c : Cell) (h : name ∉ t.cols) :
    setConstCol t name c = ⟨t.cols ++ [name], t.rows.map (fun r => r ++ [c])⟩ := by
  unfold setConstCol
  rw [findIdx?_none_of_not_mem h]

theorem applyRRBase (cols : List String) (rows : List (List Cell))
    (h : ∀ n ∈ flagColNames, n ∉ cols) :
    setConstCol (setConstCol (setConstCol (setConstCol (⟨cols, rows⟩ : Table)
        "ref_low" .na) "ref_high" .na) "ref_units" .na) "flag" (.str "UNKNOWN")
      = ⟨cols ++ flagColNames,
         rows.map (fun r => r ++ [.na, .na, .na, .str "UNKNOWN"])⟩ := by
  rw [setConstCol_absent ⟨cols, rows⟩ "ref_low" .na (h "ref_low" (by decide))]
  rw [setConstCol_absent _ "ref_high" .na (by
    intro hmem
    rcases List.mem_append.1 hmem with hmem | hmem
    · exact h "ref_high" (by decide) hmem
    · simp at hmem)]
  rw [setConstCol_absent _ "ref_units" .na (by
    intro hmem
    rcases List.mem_append.1 hmem with hmem | hmem
    · rcases List.mem_append.1 hmem with hmem | hmem
      · exact h "ref_units" (by decide) hmem
      · simp at hmem
    · simp at hmem)]
  rw [setConstCol_absent _ "flag" (.str "UNKNOWN") (by
    intro hmem
    rcases List.mem_append.1 hmem with hmem | hmem
    · rcases List.mem_append.1 hmem with hmem | hmem
      · rcases List.mem_append.1 hmem with hmem | hmem
        · exact h "flag" (by decide) hmem
        · simp at hmem
      · simp at hmem
    · simp at hmem)]
  refine congrArg₂ Table.mk ?_ ?_
  · simp [flagColNames, List.append_assoc]
  · simp only [List.map_map]
    refine List.map_congr_left (fun r _ => ?_)
    simp [Function.comp, List.append_assoc]

theorem setCellByName_ext (cols : List String) (r e : List Cell) (name : String) (v : Cell)
    (k : ℕ) (hname : name ∉ cols) (hlen : r.length = cols.length)
    (hk : flagColNames.findIdx? (· == name) = some k) :
    setCellByName (cols ++ flagColNames) (r ++ e) name v = r ++ e.set k v := by
  simp only [setCellByName, List.findIdx?_append, findIdx?_none_of_not_mem hname, hk,
    Option.map, Option.or]
  rw [List.set_append]
  have hkl : ¬ (k + cols.length < r.length) := by omega
  have hidx : k + cols.length - r.length = k := by omega
  rw [if_neg hkl, hidx]

theorem getCellD_ext (cols : List String) (r e : List Cell) (name : String) (d : Cell)
    (hneq : name ∉ flagColNames) (hlen : r.length = cols.length) :
    getCellD (cols ++ flagColNames) (r ++ e) name d = getCellD cols r name d := by
  cases hf : cols.findIdx? (· == name) with
  | some i =>
    simp only [getCellD, List.findIdx?_append, hf, Option.or]
    have hi : i < cols.length := findIdx?_lt_length hf
    rw [List.getD_eq_getElem?_getD, List.getD_eq_getElem?_getD, List.getElem?_append]
    rw [if_pos (hlen ▸ hi)]
  | none =>
    simp only [getCellD, List.findIdx?_append, hf, findIdx?_none_of_not_mem hneq,
      Option.map, Option.or]

theorem testKeyOf_ext (cols : List String) (r e : List Cell) (tc : String)
    (htc : tc ∉ flagColNames) (hlen : r.length = cols.length) :
    testKeyOf (cols ++ flagColNames) tc (r ++ e) = testKeyOf cols tc r := by
  unfold testKeyOf
  rw [getCellD_ext cols r e tc (.str "") htc hlen]

theorem sexNormOf_ext (cols : List String) (r e : List Cell) (sc : Option String)
    (hsc : ∀ c, sc = some c → c ∉ flagColNames) (hlen : r.length = cols.length) :
    sexNormOf (cols ++ flagColNames) sc (r ++ e) = sexNormOf cols sc r := by
  cases sc with
  | none => rfl
  | some c =>
    show normalizeSexValue (getCellD (cols ++ flagColNames) (r ++ e) c .na)
        = normalizeSexValue (getCellD cols r c .na)
    rw [getCellD_ext cols r e c .na (hsc c rfl) hlen]

theorem flagCells_ext (cols : List String) (r e : List Cell) (tc vc : String)
    (sc : Option String) (htc : tc ∉ flagColNames) (hvc : vc ∉ flagColNames)
    (hsc : ∀ c, sc = some c → c ∉ flagColNames) (hlen : r.length = cols.length) :
    flagCells (cols ++ flagColNames) tc vc sc (r ++ e) = flagCells cols tc vc sc r := by
  unfold flagCells
  rw [testKeyOf_ext cols r e tc htc hlen, getCellD_ext cols r e vc .na hvc hlen,
    sexNormOf_ext cols r e sc hsc hlen]

theorem flagCells4_unres (cols : List String) (m : ColMapping) (r : List Cell)
    (h : m.test_name = none ∨ m.value = none) :
    flagCells4 cols m r = [.na, .na, .na, .str "UNKNOWN"] := by
  rcases h with h | h
  · cases hv : m.value <;> simp [flagCells4, h, hv]
  · cases ht : m.test_name <;> simp [flagCells4, h, ht]

/-- The central frame characterization of `apply_reference_ranges`: when
the input columns are disjoint from the four derived names (and the
mapping does not alias them), the output is exactly the input with the
four columns appended on the right and each row extended by its four
computed cells. -/
theorem applyRR_char (df : Table) (m : ColMapping)
    (hcols : ∀ n ∈ flagColNames, n ∉ df.cols)
    (hm : ∀ c, m.test_name = some c ∨ m.value = some c ∨ m.sex = some c → c ∉ flagColNames)
    (hrect : ∀ r ∈ df.rows, r.length = df.cols.length) :
    applyReferenceRanges df m
      = ⟨df.cols ++ flagColNames, df.rows.map (fun r => r ++ flagCells4 df.cols m r)⟩ := by
  obtain ⟨cols, rows⟩ := df
  cases ht : m.test_name with
  | none =>
    cases hv : m.value with
    | none =>
      simp only [applyReferenceRanges, ht, hv]
      rw [applyRRBase cols rows hcols]
      refine congrArg (Table.mk (cols ++ flagColNames)) ?_
      refine List.map_congr_left (fun r _ => ?_)
      rw [flagCells4_unres cols m r (Or.inl ht)]
    | some vc =>
      simp only [applyReferenceRanges, ht, hv]
      rw [applyRRBase cols rows hcols]
      refine congrArg (Table.mk (cols ++ flagColNames)) ?_
      refine List.map_congr_left (fun r _ => ?_)
      rw [flagCells4_unres cols m r (Or.inl ht)]
  | some tc =>
    cases hv : m.value with
    | none =>
      simp only [applyReferenceRanges, ht, hv]
      rw [applyRRBase cols rows hcols]
      refine congrArg (Table.mk (cols ++ flagColNames)) ?_
      refine List.map_congr_left (fun r _ => ?_)
      rw [flagCells4_unres cols m r (Or.inr hv)]
    | some vc =>
      simp only [applyReferenceRanges, ht, hv]
      rw [applyRRBase cols rows hcols]
      refine congrArg (Table.mk (cols ++ flagColNames)) ?_
      rw [List.map_map]
      refine List.map_congr_left (fun r hr => ?_)
      have hlen : r.length = cols.length := hrect r hr
      dsimp only [Function.comp]
      rw [flagCells_ext cols r [.na, .na, .na, .str "UNKNOWN"] tc vc m.sex
        (hm tc (Or.inl ht)) (hm vc (Or.inr (Or.inl hv)))
        (fun c hc => hm c (Or.inr (Or.inr hc))) hlen]
      rw [setCellByName_ext cols r _ "ref_low" _ 0 (hcols "ref_low" (by decide)) hlen rfl]
      rw [setCellByName_ext cols r _ "ref_high" _ 1 (hcols "ref_high" (by decide)) hlen rfl]
      rw [setCellByName_ext cols r _ "ref_units" _ 2 (hcols "ref_units" (by decide)) hlen rfl]
      rw [setCellByName_ext cols r _ "flag" _ 3 (hcols "flag" (by decide)) hlen rfl]
      simp [flagCells4, ht, hv, List.set]

/-- Claim C6: if the `test_name` or the `value` role is unresolved, range
flagging is a no-op on the data: the output is the input (here: with fresh
derived-column names) with the four derived columns appended, every record
carrying flag UNKNOWN and empty `ref_low`/`ref_high`/`ref_units`, and no
error is raised (the function is total). -/
theorem C6_noop_unresolved (df : Table) (m : ColMapping)
    (hun : m.test_name = none ∨ m.value = none)
    (hcols : ∀ n ∈ flagColNames, n ∉ df.cols) :
    applyReferenceRanges df m
      = ⟨df.cols ++ flagColNames,
         df.rows.map (fun r => r ++ [.na, .na, .na, .str "UNKNOWN"])⟩ := by
  obtain ⟨cols, rows⟩ := df
  have base := applyRRBase cols rows hcols
  rcases hun with ht | hv
  · cases hv : m.value <;> simp only [applyReferenceRanges, ht, hv] <;> exact base
  · cases ht : m.test_name <;> simp only [applyReferenceRanges, ht, hv] <;> exact base

theorem C6_noop_unresolved_witness :
    applyReferenceRanges ⟨["a"], [[.str "x"]]⟩ emptyMapping
      = ⟨["a"] ++ flagColNames, [[Cell.str "x"]].map (fun r => r ++ [.na, .na, .na, .str "UNKNOWN"])⟩ :=
  C6_noop_unresolved ⟨["a"], [[.str "x"]]⟩ emptyMapping (Or.inl rfl) (by decide)

/-- Claim C10 (amended): provided the input's column names are disjoint
from the four derived names (so no in-place overwrite can occur; the
counterexample shows this caveat is necessary), `apply_reference_ranges`
preserves row count, row order and every original column value, and
differs from the input only by the four appended columns; being a pure
function of the embedding, the caller's frame is untouched (`df.copy()`). -/
theorem C10_frame_effect_amended (df : Table) (m : ColMapping)
    (hcols : ∀ n ∈ flagColNames, n ∉ df.cols)
    (hm : ∀ c, m.test_name = some c ∨ m.value = some c ∨ m.sex = some c → c ∉ flagColNames)
    (hrect : ∀ r ∈ df.rows, r.length = df.cols.length) :
    (applyReferenceRanges df m).cols = df.cols ++ flagColNames
    ∧ (applyReferenceRanges df m).rows.length = df.rows.length
    ∧ (applyReferenceRanges df m).rows = df.rows.map (fun r => r ++ flagCells4 df.cols m r)
    ∧ ∀ r ∈ df.rows, (r ++ flagCells4 df.cols m r).take df.cols.length = r := by
  have h := applyRR_char df m hcols hm hrect
  refine ⟨by rw [h], by rw [h]; simp, by rw [h], fun r hr => ?_⟩
  rw [← hrect r hr]
  exact List.take_left r (flagCells4 df.cols m r)

theorem C10_frame_effect_amended_witness :
    (applyReferenceRanges idemWitnessTable glucoseMapping).cols
        = idemWitnessTable.cols ++ flagColNames
    ∧ (applyReferenceRanges idemWitnessTable glucoseMapping).rows.length
        = idemWitnessTable.rows.length
    ∧ (applyReferenceRanges idemWitnessTable glucoseMapping).rows
        = idemWitnessTable.rows.map (fun r => r ++ flagCells4 idemWitnessTable.cols glucoseMapping r)
    ∧ ∀ r ∈ idemWitnessTable.rows,
        (r ++ flagCells4 idemWitnessTable.cols glucoseMapping r).take idemWitnessTable.cols.length = r :=
  C10_frame_effect_amended idemWitnessTable glucoseMapping (by decide)
    (by
      intro c hc
      rcases hc with h | h | h
      · injection h with h'
        subst h'
        decide
      · injection h with h'
        subst h'
        decide
      · exact Option.noConfusion h)
    (by
      intro r hr
      rcases List.mem_cons.1 hr with h | h
      · subst h; rfl
      · exact absurd h (List.not_mem_nil r))

theorem dropWhile_first_false (p : Char → Bool) (l : List Char) :
    ∀ a, (l.dropWhile p).head? = some a → p a = false := by
  induction l with
  | nil => intro a ha; simp at ha
  | cons b t ih =>
    intro a ha
    by_cases hb : p b = true
    · rw [List.dropWhile_cons, if_pos hb] at ha
      exact ih a ha
    · rw [List.dropWhile_cons, if_neg hb] at ha
      injection ha with ha'
      subst ha'
      exact Bool.eq_false_iff.2 hb

theorem isStripped_stripChars (cs : List Char) :
    isStripped (String.mk (stripChars cs)) = true := by
  unfold isStripped stripChars
  simp only [List.head?_reverse, List.getLast?_reverse]
  cases hB : (cs.dropWhile Char.isWhitespace).reverse.dropWhile Char.isWhitespace with
  | nil => simp
  | cons b bt =>
    have hhead : ((cs.dropWhile Char.isWhitespace).reverse.dropWhile Char.isWhitespace).head?
        = some b := by rw [hB]; rfl
    have h1 : Char.isWhitespace b = false := dropWhile_first_false _ _ b hhead
    obtain ⟨pre, hpre⟩ :=
      @List.dropWhile_suffix Char (cs.dropWhile Char.isWhitespace).reverse Char.isWhitespace
    have hBne : (cs.dropWhile Char.isWhitespace).reverse.dropWhile Char.isWhitespace ≠ [] := by
      rw [hB]; simp
    have hlast : ((cs.dropWhile Char.isWhitespace).reverse.dropWhile Char.isWhitespace).getLast?
        = ((cs.dropWhile Char.isWhitespace).reverse).getLast? := by
      conv_rhs => rw [← hpre]
      rw [List.getLast?_append_of_ne_nil pre hBne]
    rw [hB] at hlast
    rw [hlast, List.getLast?_reverse]
    cases hA : (cs.dropWhile Char.isWhitespace).head? with
    | none =>
      exfalso
      have hnil : cs.dropWhile Char.isWhitespace = [] := by
        cases hc : cs.dropWhile Char.isWhitespace with
        | nil => rfl
        | cons x xs => rw [hc] at hA; simp at hA
      rw [hnil] at hB
      simp at hB
    | some a =>
      have h2 : Char.isWhitespace a = false := dropWhile_first_false _ _ a hA
      simp [hB, h1, h2]

theorem trimCell_isNa (c : Cell) : (trimCell c).isNa = c.isNa := by cases c <;> rfl

theorem isStripped_pyStrip (s : String) : isStripped (pyStrip s) = true :=
  isStripped_stripChars s.data

/-- Claim C7: for every raw table, the loader's cleaning output has no
fully-empty row, no fully-empty column, every string-typed cell free of
leading/trailing whitespace, and no two exactly-duplicate rows (equality
taken after trimming, which is when the duplicate drop runs). -/
theorem C7_clean_table (t : Table) :
    (∀ r ∈ (cleanTable t).rows, r.any (fun c => !c.isNa) = true)
    ∧ (∀ j, j < (cleanTable t).cols.length →
        (cleanTable t).rows.any (fun r => !(r.getD j .na).isNa) = true)
    ∧ (∀ r ∈ (cleanTable t).rows, ∀ c ∈ r, ∀ s, c = Cell.str s → isStripped s = true)
    ∧ (cleanTable t).rows.Nodup := by
  obtain ⟨cols, rows⟩ := t
  set w := cols.length with hw
  set rows₁ := rows.filter (rowNonEmpty w) with hrows₁
  set keep := (List.range w).filter (fun j => rows₁.any (fun r => !(r.getD j .na).isNa)) with hkeep
  set rows₃ := rows₁.map (fun r => keep.map (fun j => trimCell (r.getD j .na))) with hrows₃
  have hct : cleanTable ⟨cols, rows⟩ = ⟨keep.map (fun j => cols.getD j ""), dedupFirst rows₃⟩ := rfl
  rw [hct]
  refine ⟨?_, ?_, ?_, dedupFirst_nodup _⟩
  · intro r hr
    have hr₃ : r ∈ rows₃ := dedupFirst_subset _ r hr
    rw [hrows₃] at hr₃
    obtain ⟨r₁, hr₁, hrproj⟩ := List.mem_map.1 hr₃
    have hne : rowNonEmpty w r₁ = true := by
      rw [hrows₁] at hr₁
      exact (List.mem_filter.1 hr₁).2
    obtain ⟨j, hjr, hj⟩ := List.any_eq_true.1 hne
    have hjkeep : j ∈ keep := by
      rw [hkeep]
      exact List.mem_filter.2 ⟨hjr, List.any_eq_true.2 ⟨r₁, hr₁, hj⟩⟩
    refine List.any_eq_true.2 ⟨trimCell (r₁.getD j .na), ?_, ?_⟩
    · rw [← hrproj]
      exact List.mem_map.2 ⟨j, hjkeep, rfl⟩
    · rw [trimCell_isNa]
      exact hj
  · intro j hjlen
    have hjk : j < keep.length := by simpa using hjlen
    have hjo_mem : keep.get ⟨j, hjk⟩ ∈ keep := List.get_mem keep j hjk
    have hjo₂ : keep.get ⟨j, hjk⟩
        ∈ List.filter (fun i => rows₁.any fun r => !(r.getD i Cell.na).isNa) (List.range w) :=
      hjo_mem
    have hcol : rows₁.any (fun r => !(r.getD (keep.get ⟨j, hjk⟩) .na).isNa) = true :=
      (List.mem_filter.1 hjo₂).2
    obtain ⟨r₁, hr₁, hj⟩ := List.any_eq_true.1 hcol
    refine List.any_eq_true.2 ⟨keep.map (fun i => trimCell (r₁.getD i .na)),
      dedupFirst_mem _ _ (by rw [hrows₃]; exact List.mem_map.2 ⟨r₁, hr₁, rfl⟩), ?_⟩
    have hproj : (keep.map (fun i => trimCell (r₁.getD i .na))).getD j .na
        = trimCell (r₁.getD (keep.get ⟨j, hjk⟩) .na) := by
      rw [List.getD_eq_getElem?_getD, List.getElem?_map, List.getElem?_eq_getElem hjk]
      rfl
    rw [hproj, trimCell_isNa]
    exact hj
  · intro r hr c hc s hcs
    have hr₃ : r ∈ rows₃ := dedupFirst_subset _ r hr
    rw [hrows₃] at hr₃
    obtain ⟨r₁, hr₁, hrproj⟩ := List.mem_map.1 hr₃
    rw [← hrproj] at hc
    obtain ⟨j, hjmem, hcj⟩ := List.mem_map.1 hc
    have htc : trimCell (r₁.getD j .na) = Cell.str s := hcj.trans hcs
    cases hcell : r₁.getD j .na with
    | na => rw [hcell] at htc; simp [trimCell] at htc
    | str s₀ =>
      rw [hcell] at htc
      have hss : pyStrip s₀ = s := by simpa [trimCell] using htc
      rw [← hss]
      exact isStripped_pyStrip s₀
    | num q => rw [hcell] at htc; simp [trimCell] at htc

theorem C7_clean_table_witness :
    ([Cell.str "x"].any (fun c => !c.isNa) = true)
    ∧ (cleanTable rawDirtyTable).rows.any (fun r => !(r.getD 0 .na).isNa) = true
    ∧ isStripped "x" = true
    ∧ (cleanTable rawDirtyTable).rows.Nodup :=
  ⟨(C7_clean_table rawDirtyTable).1 [Cell.str "x"] (by decide),
   (C7_clean_table rawDirtyTable).2.1 0 (by decide),
   (C7_clean_table rawDirtyTable).2.2.1 [Cell.str "x"] (by decide) (Cell.str "x") (by decide)
     "x" rfl,
   (C7_clean_table rawDirtyTable).2.2.2⟩

/-- Claim C9 (counterexample): on the input with raw values "85" and
"85.0" (distinct as text, equal after numeric coercion), the first run
flags 2 records, but re-running the pipeline on its own cleaned output
with the flag columns stripped de-duplicates the now-identical rows and
flags only 1 — the flagged dataset (and the summary's counts) differ. -/
theorem C9_counterexample :
    stripFlagCols (pipelineFlagged collapsingTable)
      = ⟨["test", "value"], [[.str "GLU", .num 85], [.str "GLU", .num 85]]⟩
    ∧ (pipelineFlagged collapsingTable).rows.length = 2
    ∧ (pipelineFlagged (stripFlagCols (pipelineFlagged collapsingTable))).rows.length = 1
    ∧ ¬ (pipelineFlagged (stripFlagCols (pipelineFlagged collapsingTable))
           = pipelineFlagged collapsingTable
         ∧ pipelineSummary (stripFlagCols (pipelineFlagged collapsingTable)) ["test_name", "sex"]
           = pipelineSummary collapsingTable ["test_name", "sex"]) := by
  decide

theorem digitsLen_le (y w : ℕ) (h : y < 10 ^ w) : (Nat.digits 10 y).length ≤ w := by
  rcases Nat.eq_zero_or_pos y with rfl | hy
  · simp
  · by_contra hlen
    push_neg at hlen
    have h1 : 10 ^ (Nat.digits 10 y).length ≤ 10 * y :=
      Nat.base_pow_length_digits_le 10 y (by norm_num) (Nat.pos_iff_ne_zero.1 hy)
    have h2 : 10 ^ (w + 1) ≤ 10 ^ (Nat.digits 10 y).length :=
      Nat.pow_le_pow_right (by norm_num) hlen
    have h3 : 10 * 10 ^ w ≤ 10 * y := by
      calc 10 * 10 ^ w = 10 ^ (w + 1) := (pow_succ 10 w).symm ▸ (by ring)
        _ ≤ 10 ^ (Nat.digits 10 y).length := h2
        _ ≤ 10 * y := h1
    exact absurd (Nat.le_of_mul_le_mul_left h3 (by norm_num)) (not_le.2 h)

theorem natDigitCharsAux_eq (n : ℕ) : ∀ (f : ℕ) (acc : List Char), n ≤ f →
    natDigitCharsAux f n acc = ((Nat.digits 10 n).map Nat.digitChar).reverse ++ acc := by
  induction n using Nat.strong_induction_on with
  | _ n ih =>
    intro f acc hf
    rcases Nat.eq_zero_or_pos n with rfl | hn
    · cases f with
      | zero => simp [natDigitCharsAux]
      | succ f' => simp [natDigitCharsAux]
    · have hf1 : 1 ≤ f := le_trans hn hf
      obtain ⟨f', rfl⟩ := Nat.exists_eq_add_of_le hf1
      rw [show 1 + f' = f' + 1 by ring]
      rw [natDigitCharsAux, if_neg (Nat.pos_iff_ne_zero.1 hn)]
      have hlt : n / 10 < n := Nat.div_lt_self hn (by norm_num)
      have hle : n / 10 ≤ f' := by omega
      rw [ih (n / 10) hlt f' _ hle]
      rw [Nat.digits_def' (by norm_num : (1:ℕ) < 10) hn]
      simp [List.append_assoc]

theorem natDigitChars_eq (n : ℕ) :
    natDigitChars n = ((Nat.digits 10 n).map Nat.digitChar).reverse := by
  rw [natDigitChars, natDigitCharsAux_eq n n [] (le_refl n), List.append_nil]

theorem digitChar_facts : ∀ d < 10, (Nat.digitChar d).isDigit = true
    ∧ ((Nat.digitChar d).toNat - 48) = d
    ∧ ((Nat.digitChar d) == '-') = false
    ∧ (Nat.digitChar d).isWhitespace = false := by decide

theorem natDigitChars_props (n : ℕ) :
    ∀ c ∈ natDigitChars n, c.isDigit = true ∧ (c == '-') = false ∧ c.isWhitespace = false := by
  intro c hc
  rw [natDigitChars_eq] at hc
  rw [List.mem_reverse, List.mem_map] at hc
  obtain ⟨d, hd, rfl⟩ := hc
  have hdlt : d < 10 := Nat.digits_lt_base (by norm_num) hd
  exact ⟨(digitChar_facts d hdlt).1, (digitChar_facts d hdlt).2.2.1, (digitChar_facts d hdlt).2.2.2⟩

theorem padChars_props (w n : ℕ) :
    ∀ c ∈ padChars w n, c.isDigit = true ∧ (c == '-') = false ∧ c.isWhitespace = false := by
  intro c hc
  rcases List.mem_append.1 hc with hc | hc
  · rw [List.eq_of_mem_replicate hc]
    decide
  · exact natDigitChars_props n c hc

theorem padChars_length (w n : ℕ) (h : n < 10 ^ w) : (padChars w n).length = w := by
  rw [padChars, List.length_append, List.length_replicate]
  have : (natDigitChars n).length ≤ w := by
    rw [natDigitChars_eq, List.length_reverse, List.length_map]
    exact digitsLen_le n w h
  omega

theorem digitsAux_append (l₁ l₂ : List Char) : ∀ acc,
    digitsAux acc (l₁ ++ l₂) = (digitsAux acc l₁).bind (fun m => digitsAux m l₂) := by
  induction l₁ with
  | nil => intro acc; rfl
  | cons c cs ih =>
    intro acc
    by_cases hc : c.isDigit = true
    · rw [List.cons_append, digitsAux, if_pos hc, digitsAux, if_pos hc, ih]
    · rw [List.cons_append, digitsAux, if_neg hc, digitsAux, if_neg hc, Option.none_bind]

theorem digitsAux_replicate_zero (k : ℕ) : digitsAux 0 (List.replicate k '0') = some 0 := by
  induction k with
  | zero => rfl
  | succ k ih =>
    rw [List.replicate_succ, digitsAux, if_pos (by decide)]
    simpa using ih

theorem digitsAux_digitChars (n : ℕ) : ∀ acc,
    digitsAux acc (((Nat.digits 10 n).map Nat.digitChar).reverse)
      = some (acc * 10 ^ (Nat.digits 10 n).length + n) := by
  induction n using Nat.strong_induction_on with
  | _ n ih =>
    intro acc
    rcases Nat.eq_zero_or_pos n with rfl | hn
    · simp [digitsAux]
    · rw [Nat.digits_def' (by norm_num : (1:ℕ) < 10) hn]
      have hlt : n / 10 < n := Nat.div_lt_self hn (by norm_num)
      have hmod : n % 10 < 10 := Nat.mod_lt n (by norm_num)
      rw [List.map_cons, List.reverse_cons, digitsAux_append, ih (n / 10) hlt acc]
      rw [Option.some_bind, digitsAux, if_pos (digitChar_facts _ hmod).1]
      rw [(digitChar_facts _ hmod).2.1]
      show digitsAux _ [] = _
      rw [digitsAux]
      congr 1
      have := Nat.div_add_mod n 10
      rw [List.length_cons]
      ring_nf
      omega

theorem parseDigits_padChars (w n : ℕ) (hw : 1 ≤ w) : parseDigits (padChars w n) = some n := by
  have hlen : 0 < (padChars w n).length := by
    rw [padChars, List.length_append, List.length_replicate]
    omega
  have hne : (padChars w n).isEmpty = false := by
    cases hpc : padChars w n with
    | nil => rw [hpc] at hlen; simp at hlen
    | cons c cs => rfl
  rw [parseDigits, if_neg (by rw [hne]; exact Bool.false_ne_true)]
  rw [padChars, digitsAux_append, digitsAux_replicate_zero, Option.some_bind]
  rw [natDigitChars_eq, digitsAux_digitChars]
  simp

theorem dropWhile_all_false {p : Char → Bool} (l : List Char) (h : ∀ c ∈ l, p c = false) :
    l.dropWhile p = l := by
  cases l with
  | nil => rfl
  | cons c cs =>
    rw [List.dropWhile_cons, if_neg (by rw [h c (List.mem_cons_self c cs)]; exact Bool.false_ne_true)]

theorem stripChars_id (l : List Char) (h : ∀ c ∈ l, Char.isWhitespace c = false) :
    stripChars l = l := by
  unfold stripChars
  rw [dropWhile_all_false l h,
    dropWhile_all_false l.reverse (fun c hc => h c (List.mem_reverse.1 hc)),
    List.reverse_reverse]

theorem takeWhile_append_cons {p : Char → Bool} (l₁ : List Char) (a : Char) (l₂ : List Char)
    (hl : ∀ c ∈ l₁, p c = true) (ha : p a = false) :
    (l₁ ++ a :: l₂).takeWhile p = l₁ := by
  induction l₁ with
  | nil =>
    rw [List.nil_append, List.takeWhile_cons,
      if_neg (by rw [ha]; exact Bool.false_ne_true)]
  | cons c cs ih =>
    rw [List.cons_append, List.takeWhile_cons, if_pos (hl c (List.mem_cons_self c cs))]
    rw [ih (fun x hx => hl x (List.mem_cons_of_mem c hx))]

theorem dropWhile_append_cons {p : Char → Bool} (l₁ : List Char) (a : Char) (l₂ : List Char)
    (hl : ∀ c ∈ l₁, p c = true) (ha : p a = false) :
    (l₁ ++ a :: l₂).dropWhile p = a :: l₂ := by
  induction l₁ with
  | nil =>
    rw [List.nil_append, List.dropWhile_cons,
      if_neg (by rw [ha]; exact Bool.false_ne_true)]
  | cons c cs ih =>
    rw [List.cons_append, List.dropWhile_cons, if_pos (hl c (List.mem_cons_self c cs))]
    exact ih (fun x hx => hl x (List.mem_cons_of_mem c hx))

theorem monthLen_le_31 (y m : ℕ) : monthLen y m ≤ 31 := by
  unfold monthLen
  split_ifs <;> omega

theorem parseDate_isoFormat (y m d : ℕ) (hy : y < 10000) (hm1 : 1 ≤ m) (hm2 : m ≤ 12)
    (hd1 : 1 ≤ d) (hd2 : d ≤ monthLen y m) :
    parseDate (isoFormat (y, m, d)) = some (y, m, d) := by
  have hylen : (padChars 4 y).length = 4 := padChars_length 4 y hy
  have hmlen : (padChars 2 m).length = 2 := padChars_length 2 m (by omega)
  have hdlt : d < 100 := by
    have := monthLen_le_31 y m
    omega
  have hdlen : (padChars 2 d).length = 2 := padChars_length 2 d hdlt
  have hdash : Char.isWhitespace '-' = false := by decide
  have hdashne : (('-' : Char) != '-') = false := by decide
  have hne : ∀ (w n : ℕ), ∀ c ∈ padChars w n, (c != '-') = true := by
    intro w n c hc
    have := (padChars_props w n c hc).2.1
    simp [bne, this]
  show parseDateChars (stripChars
    (padChars 4 y ++ '-' :: (padChars 2 m ++ '-' :: padChars 2 d))) = some (y, m, d)
  rw [stripChars_id _ (by
    intro c hc
    rcases List.mem_append.1 hc with hc | hc
    · exact (padChars_props 4 y c hc).2.2
    · rcases List.mem_cons.1 hc with rfl | hc
      · exact hdash
      · rcases List.mem_append.1 hc with hc | hc
        · exact (padChars_props 2 m c hc).2.2
        · rcases List.mem_cons.1 hc with rfl | hc
          · exact hdash
          · exact (padChars_props 2 d c hc).2.2)]
  rw [parseDateChars]
  rw [takeWhile_append_cons _ _ _ (hne 4 y) hdashne]
  rw [dropWhile_append_cons _ _ _ (hne 4 y) hdashne]
  dsimp only
  rw [takeWhile_append_cons _ _ _ (hne 2 m) hdashne]
  rw [dropWhile_append_cons _ _ _ (hne 2 m) hdashne]
  dsimp only
  rw [if_pos (by
    rw [hylen, hmlen, hdlen]
    decide)]
  rw [parseDigits_padChars 4 y (by norm_num), parseDigits_padChars 2 m (by norm_num),
    parseDigits_padChars 2 d (by norm_num)]
  dsimp only
  rw [if_pos (by simp [hm1, hm2, hd1, hd2])]

theorem digit_toNat_le (c : Char) (h : c.isDigit = true) : c.toNat - 48 ≤ 9 := by
  unfold Char.isDigit at h
  rw [Bool.and_eq_true] at h
  obtain ⟨h1, h2⟩ := h
  rw [decide_eq_true_eq] at h2
  have g2 : c.val.toNat ≤ 57 := h2
  have : c.toNat = c.val.toNat := rfl
  omega

theorem digitsAux_lt (cs : List Char) : ∀ acc n, digitsAux acc cs = some n →
    n < (acc + 1) * 10 ^ cs.length := by
  induction cs with
  | nil =>
    intro acc n h
    rw [digitsAux] at h
    injection h with h'
    subst h'
    simp
  | cons c cs ih =>
    intro acc n h
    rw [digitsAux] at h
    by_cases hc : c.isDigit = true
    · rw [if_pos hc] at h
      have hstep := ih (acc * 10 + (c.toNat - 48)) n h
      have hdd : c.toNat - 48 ≤ 9 := digit_toNat_le c hc
      have hmono : (acc * 10 + (c.toNat - 48) + 1) * 10 ^ cs.length
          ≤ (acc + 1) * 10 ^ (c :: cs).length := by
        rw [List.length_cons, pow_succ]
        have h10 : (0:ℕ) < 10 ^ cs.length := Nat.pos_pow_of_pos _ (by norm_num)
        calc (acc * 10 + (c.toNat - 48) + 1) * 10 ^ cs.length
            ≤ ((acc + 1) * 10) * 10 ^ cs.length := by
              apply Nat.mul_le_mul_right
              omega
          _ = (acc + 1) * (10 ^ cs.length * 10) := by ring
      exact lt_of_lt_of_le hstep hmono
    · rw [if_neg hc] at h
      exact absurd h (by simp)

theorem parseDigits_lt (cs : List Char) (n : ℕ) (h : parseDigits cs = some n) :
    n < 10 ^ cs.length := by
  rw [parseDigits] at h
  by_cases he : cs.isEmpty = true
  · rw [if_pos he] at h
    exact absurd h (by simp)
  · rw [if_neg he] at h
    have := digitsAux_lt cs 0 n h
    simpa using this

theorem parseDateChars_bounds (cs : List Char) (y m d : ℕ)
    (h : parseDateChars cs = some (y, m, d)) :
    y < 10000 ∧ 1 ≤ m ∧ m ≤ 12 ∧ 1 ≤ d ∧ d ≤ monthLen y m := by
  unfold parseDateChars at h
  cases h1 : cs.dropWhile (· != '-') with
  | nil => rw [h1] at h; exact absurd h (by simp)
  | cons a rest₁ =>
    rw [h1] at h
    dsimp only at h
    cases h2 : rest₁.dropWhile (· != '-') with
    | nil => rw [h2] at h; exact absurd h (by simp)
    | cons b ds =>
      rw [h2] at h
      dsimp only at h
      by_cases hc1 : ((cs.takeWhile (· != '-')).length == 4
          && decide (1 ≤ (rest₁.takeWhile (· != '-')).length)
          && decide ((rest₁.takeWhile (· != '-')).length ≤ 2)
          && decide (1 ≤ ds.length) && decide (ds.length ≤ 2)) = true
      · rw [if_pos hc1] at h
        cases hy : parseDigits (cs.takeWhile (· != '-')) with
        | none => rw [hy] at h; exact absurd h (by simp)
        | some py =>
          cases hmm : parseDigits (rest₁.takeWhile (· != '-')) with
          | none => rw [hy, hmm] at h; exact absurd h (by simp)
          | some pm =>
            cases hd : parseDigits ds with
            | none => rw [hy, hmm, hd] at h; exact absurd h (by simp)
            | some pd =>
              rw [hy, hmm, hd] at h
              dsimp only at h
              by_cases hc2 : (decide (1 ≤ pm) && decide (pm ≤ 12) && decide (1 ≤ pd)
                  && decide (pd ≤ monthLen py pm)) = true
              · rw [if_pos hc2] at h
                injection h with h'
                injection h' with ha hb
                injection hb with hb hcc
                subst ha
                subst hb
                subst hcc
                simp only [Bool.and_eq_true, decide_eq_true_eq, beq_iff_eq] at hc1 hc2
                have hylt : py < 10 ^ (cs.takeWhile (· != '-')).length :=
                  parseDigits_lt _ _ hy
                rw [hc1.1.1.1.1] at hylt
                exact ⟨by norm_num at hylt; exact hylt, hc2.1.1.1, hc2.1.1.2, hc2.1.2, hc2.2⟩
              · rw [if_neg hc2] at h
                exact absurd h (by simp)
      · rw [if_neg hc1] at h
        exact absurd h (by simp)

theorem dateCoerceCell_idem (c : Cell) : dateCoerceCell (dateCoerceCell c) = dateCoerceCell c := by
  cases c with
  | na => rfl
  | num q => rfl
  | str s =>
    rw [dateCoerceCell]
    cases hp : parseDate s with
    | none => rfl
    | some t =>
      obtain ⟨y, m, d⟩ := t
      obtain ⟨hy, hm1, hm2, hd1, hd2⟩ := parseDateChars_bounds _ y m d hp
      rw [dateCoerceCell, parseDate_isoFormat y m d hy hm1 hm2 hd1 hd2]

theorem toNumericCell_idem (c : Cell) : toNumericCell (toNumericCell c) = toNumericCell c := by
  cases c with
  | na => rfl
  | num q => rfl
  | str s =>
    rw [toNumericCell]
    cases hp : parseNum s with
    | none => rfl
    | some q => rfl

theorem modifyIdx_length (f : Cell → Cell) (i : ℕ) (r : List Cell) :
    (modifyIdx f i r).length = r.length := by
  induction r generalizing i with
  | nil => cases i <;> rfl
  | cons c cs ih =>
    cases i with
    | zero => rfl
    | succ n => simp [modifyIdx, ih]

theorem modifyIdx_comm (f g : Cell → Cell) (i j : ℕ) (hij : i ≠ j) (r : List Cell) :
    modifyIdx f i (modifyIdx g j r) = modifyIdx g j (modifyIdx f i r) := by
  induction r generalizing i j with
  | nil => cases i <;> cases j <;> rfl
  | cons c cs ih =>
    cases i with
    | zero =>
      cases j with
      | zero => exact absurd rfl hij
      | succ n => rfl
    | succ n =>
      cases j with
      | zero => rfl
      | succ k =>
        simp only [modifyIdx, List.cons.injEq, true_and]
        exact ih n k (fun hnk => hij (by rw [hnk]))

theorem modifyIdx_idem (f : Cell → Cell) (hf : ∀ c, f (f c) = f c) (i : ℕ) (r : List Cell) :
    modifyIdx f i (modifyIdx f i r) = modifyIdx f i r := by
  induction r generalizing i with
  | nil => cases i <;> rfl
  | cons c cs ih =>
    cases i with
    | zero => simp [modifyIdx, hf]
    | succ n => simp [modifyIdx, ih]

theorem applyMods_cons (p : ℕ × (Cell → Cell)) (ms : List (ℕ × (Cell → Cell))) (r : List Cell) :
    applyMods (p :: ms) r = applyMods ms (modifyIdx p.2 p.1 r) := rfl

theorem applyMods_length (ms : List (ℕ × (Cell → Cell))) (r : List Cell) :
    (applyMods ms r).length = r.length := by
  induction ms generalizing r with
  | nil => rfl
  | cons p ms ih => rw [applyMods_cons, ih, modifyIdx_length]

theorem modify_applyMods_comm (ms : List (ℕ × (Cell → Cell))) (i : ℕ) (f : Cell → Cell)
    (h : ∀ q ∈ ms, q.1 ≠ i) (r : List Cell) :
    applyMods ms (modifyIdx f i r) = modifyIdx f i (applyMods ms r) := by
  induction ms generalizing r with
  | nil => rfl
  | cons q ms ih =>
    rw [applyMods_cons, applyMods_cons]
    rw [← modifyIdx_comm f q.2 i q.1 (fun hiq => (h q (List.mem_cons_self q ms)) hiq.symm) r]
    exact ih (fun q' hq' => h q' (List.mem_cons_of_mem q hq')) _

theorem applyMods_idem (ms : List (ℕ × (Cell → Cell)))
    (hpw : ms.Pairwise (fun p q => p.1 ≠ q.1))
    (hid : ∀ q ∈ ms, ∀ c, q.2 (q.2 c) = q.2 c) (r : List Cell) :
    applyMods ms (applyMods ms r) = applyMods ms r := by
  induction ms generalizing r with
  | nil => rfl
  | cons q ms ih =>
    rw [applyMods_cons, applyMods_cons]
    have hq : ∀ p ∈ ms, p.1 ≠ q.1 := fun p hp =>
      ((List.pairwise_cons.1 hpw).1 p hp).symm
    rw [modify_applyMods_comm ms q.1 q.2 hq r]
    rw [modifyIdx_idem q.2 (hid q (List.mem_cons_self q ms)) q.1]
    rw [modify_applyMods_comm ms q.1 q.2 hq (applyMods ms r)]
    rw [ih (List.pairwise_cons.1 hpw).2
      (fun p hp c => hid p (List.mem_cons_of_mem q hp) c)]

theorem findIdx?_name_eq {cols : List String} {a : String} {i : ℕ}
    (h : cols.findIdx? (· == a) = some i) : ∃ hi : i < cols.length, cols.get ⟨i, hi⟩ = a := by
  obtain ⟨hi, hfi⟩ := List.findIdx?_eq_some_iff_findIdx_eq.1 h
  refine ⟨hi, ?_⟩
  have hw : List.findIdx (· == a) cols < cols.length := by rw [hfi]; exact hi
  have := @List.findIdx_getElem String (· == a) cols hw
  rw [beq_iff_eq] at this
  rw [List.get_eq_getElem]
  rw [← this]
  congr 1
  exact hfi.symm

theorem findIdx?_name_inj {cols : List String} {a b : String} {i j : ℕ}
    (ha : cols.findIdx? (· == a) = some i) (hb : cols.findIdx? (· == b) = some j)
    (hab : a ≠ b) : i ≠ j := by
  intro hij
  obtain ⟨hi, hga⟩ := findIdx?_name_eq ha
  obtain ⟨hj, hgb⟩ := findIdx?_name_eq hb
  subst hij
  rw [← hga, ← hgb] at hab
  exact hab rfl

theorem colMods_pairwise (cols dcs : List String) (vOpt : Option String)
    (hnd : dcs.Nodup) (hv : ∀ v, vOpt = some v → v ∉ dcs) :
    (colMods cols dcs vOpt).Pairwise (fun p q => p.1 ≠ q.1) := by
  unfold colMods
  rw [List.pairwise_append]
  refine ⟨?_, ?_, ?_⟩
  · refine List.Pairwise.filterMap _ (fun a b hab p hp q hq => ?_) hnd
    rw [Option.mem_def, Option.map_eq_some'] at hp hq
    obtain ⟨i, hia, rfl⟩ := hp
    obtain ⟨j, hjb, rfl⟩ := hq
    exact findIdx?_name_inj hia hjb hab
  · cases vOpt with
    | none => exact List.Pairwise.nil
    | some v =>
      dsimp only
      cases hf : cols.findIdx? (· == v) with
      | none => simp
      | some i => simp
  · intro p hp q hq
    obtain ⟨c, hc, hpc⟩ := List.mem_filterMap.1 hp
    rw [Option.map_eq_some'] at hpc
    obtain ⟨i, hic, rfl⟩ := hpc
    cases hvv : vOpt with
    | none =>
      rw [hvv] at hq
      dsimp only at hq
      exact absurd hq (List.not_mem_nil q)
    | some v =>
      rw [hvv] at hq
      dsimp only at hq
      cases hf : cols.findIdx? (· == v) with
      | none => rw [hf] at hq; exact absurd hq (by simp)
      | some j =>
        rw [hf] at hq
        simp only [Option.map_some', Option.toList_some, List.mem_singleton] at hq
        subst hq
        have hcv : c ≠ v := fun hcon => hv v hvv (hcon ▸ hc)
        exact findIdx?_name_inj hic hf hcv

theorem colMods_idem (cols dcs : List String) (vOpt : Option String) :
    ∀ q ∈ colMods cols dcs vOpt, ∀ c, q.2 (q.2 c) = q.2 c := by
  intro q hq c
  rcases List.mem_append.1 hq with hq | hq
  · obtain ⟨nm, _, hnm⟩ := List.mem_filterMap.1 hq
    rw [Option.map_eq_some'] at hnm
    obtain ⟨i, _, rfl⟩ := hnm
    exact dateCoerceCell_idem c
  · cases hvv : vOpt with
    | none =>
      rw [hvv] at hq
      dsimp only at hq
      exact absurd hq (List.not_mem_nil q)
    | some v =>
      rw [hvv] at hq
      dsimp only at hq
      cases hf : cols.findIdx? (· == v) with
      | none => rw [hf] at hq; exact absurd hq (by simp)
      | some j =>
        rw [hf] at hq
        simp only [Option.map_some', Option.toList_some, List.mem_singleton] at hq
        subst hq
        exact toNumericCell_idem c

theorem inferCol_value_lower (cols : List String) (v : String)
    (h : inferCol cols candidatesValue = some v) :
    strLower v = "value" ∨ strLower v = "result" ∨ strLower v = "result_value"
      ∨ strLower v = "lab_value" := by
  obtain ⟨_, pre, o, post, heq, hlow, _⟩ := inferCol_some cols candidatesValue v h
  have ho : o ∈ candidatesValue := by
    rw [heq]
    exact List.mem_append.2 (Or.inr (List.mem_cons_self o post))
  simp only [candidatesValue, List.mem_cons, List.not_mem_nil, or_false] at ho
  rcases ho with rfl | rfl | rfl | rfl
  · exact Or.inl (by rw [hlow]; rfl)
  · exact Or.inr (Or.inl (by rw [hlow]; rfl))
  · exact Or.inr (Or.inr (Or.inl (by rw [hlow]; rfl)))
  · exact Or.inr (Or.inr (Or.inr (by rw [hlow]; rfl)))

theorem inferCol_date_lower (cols : List String) (dn : String)
    (h : inferCol cols candidatesDate = some dn) :
    strLower dn = "date" ∨ strLower dn = "collection_date" ∨ strLower dn = "draw_date"
      ∨ strLower dn = "result_date" := by
  obtain ⟨_, pre, o, post, heq, hlow, _⟩ := inferCol_some cols candidatesDate dn h
  have ho : o ∈ candidatesDate := by
    rw [heq]
    exact List.mem_append.2 (Or.inr (List.mem_cons_self o post))
  simp only [candidatesDate, List.mem_cons, List.not_mem_nil, or_false] at ho
  rcases ho with rfl | rfl | rfl | rfl
  · exact Or.inl (by rw [hlow]; rfl)
  · exact Or.inr (Or.inl (by rw [hlow]; rfl))
  · exact Or.inr (Or.inr (Or.inl (by rw [hlow]; rfl)))
  · exact Or.inr (Or.inr (Or.inr (by rw [hlow]; rfl)))

theorem dateLike_strLower (name : String) :
    dateLike name = datePatterns.any (fun p => containsWord (strLower name).data p.data) := rfl

theorem value_not_dateLike (cols : List String) (v : String)
    (h : inferCol cols candidatesValue = some v) : dateLike v = false := by
  rcases inferCol_value_lower cols v h with hl | hl | hl | hl <;>
    rw [dateLike_strLower, hl] <;> decide

theorem value_ne_dateName (cols : List String) (v dn : String)
    (hv : inferCol cols candidatesValue = some v)
    (hd : inferCol cols candidatesDate = some dn) : v ≠ dn := by
  intro hcon
  subst hcon
  rcases inferCol_value_lower cols v hv with hl | hl | hl | hl <;>
    rcases inferCol_date_lower cols v hd with hl2 | hl2 | hl2 | hl2 <;>
    (rw [hl] at hl2; exact absurd hl2 (by decide))

theorem cleanTable_cols_subset (t : Table) : ∀ c ∈ (cleanTable t).cols, c ∈ t.cols := by
  obtain ⟨cols, rows⟩ := t
  intro c hc
  have hck : (cleanTable ⟨cols, rows⟩).cols
      = ((List.range cols.length).filter
          (fun j => (rows.filter (rowNonEmpty cols.length)).any
            (fun r => !(r.getD j .na).isNa))).map (fun j => cols.getD j "") := rfl
  rw [hck] at hc
  obtain ⟨j, hj, rfl⟩ := List.mem_map.1 hc
  have hjw : j < cols.length := List.mem_range.1 (List.mem_filter.1 hj).1
  rw [List.getD_eq_getElem cols "" hjw]
  exact List.getElem_mem hjw

theorem cleanTable_rect (t : Table) :
    ∀ r ∈ (cleanTable t).rows, r.length = (cleanTable t).cols.length := by
  obtain ⟨cols, rows⟩ := t
  intro r hr
  have hck : (cleanTable ⟨cols, rows⟩).cols
      = ((List.range cols.length).filter
          (fun j => (rows.filter (rowNonEmpty cols.length)).any
            (fun r => !(r.getD j .na).isNa))).map (fun j => cols.getD j "") := rfl
  have hrk : (cleanTable ⟨cols, rows⟩).rows
      = dedupFirst ((rows.filter (rowNonEmpty cols.length)).map
          (fun r => ((List.range cols.length).filter
            (fun j => (rows.filter (rowNonEmpty cols.length)).any
              (fun r' => !(r'.getD j .na).isNa))).map (fun j => trimCell (r.getD j .na)))) := rfl
  rw [hrk] at hr
  have hr₃ := dedupFirst_subset _ r hr
  obtain ⟨r₁, _, hproj⟩ := List.mem_map.1 hr₃
  rw [hck, ← hproj, List.length_map, List.length_map]

theorem mapGetDRange {α : Type} (l ex : List α) (d : α) :
    (List.range l.length).map (fun j => (l ++ ex).getD j d) = l := by
  induction l with
  | nil => rfl
  | cons a t ih =>
    have htail : ((fun j => ((a :: t) ++ ex).getD j d) ∘ Nat.succ)
        = (fun j => (t ++ ex).getD j d) := by
      funext j
      rw [Function.comp_apply, List.cons_append, List.getD_cons_succ]
    rw [List.length_cons, List.range_succ_eq_map, List.map_cons, List.map_map, htail, ih,
      List.cons_append, List.getD_cons_zero]

theorem stripFlag_of_append (cols : List String) (rows : List (List Cell))
    (ext : List Cell → List Cell)
    (hdisj : ∀ n ∈ flagColNames, n ∉ cols)
    (hrect : ∀ r ∈ rows, r.length = cols.length) :
    stripFlagCols ⟨cols ++ flagColNames, rows.map (fun r => r ++ ext r)⟩ = ⟨cols, rows⟩ := by
  unfold stripFlagCols
  have hkeep : (List.range (cols ++ flagColNames).length).filter
      (fun j => !(flagColNames.contains ((cols ++ flagColNames).getD j "")))
      = List.range cols.length := by
    rw [List.length_append, List.range_add, List.filter_append]
    have h1 : (List.range cols.length).filter
        (fun j => !(flagColNames.contains ((cols ++ flagColNames).getD j ""))) =
        List.range cols.length := by
      refine List.filter_eq_self.2 (fun j hj => ?_)
      have hj' : j < cols.length := List.mem_range.1 hj
      rw [List.getD_append cols flagColNames "" j hj']
      have hmem : cols.getD j "" ∈ cols := by
        rw [List.getD_eq_getElem cols "" hj']
        exact List.getElem_mem hj'
      have hnotin : cols.getD j "" ∉ flagColNames := by
        intro hcon
        exact hdisj (cols.getD j "") hcon hmem
      have : flagColNames.contains (cols.getD j "") = false := by
        rw [← Bool.not_eq_true]
        intro hc
        exact hnotin (List.elem_iff.1 hc)
      rw [this]
      rfl
    have h2 : ((List.range flagColNames.length).map (fun x => cols.length + x)).filter
        (fun j => !(flagColNames.contains ((cols ++ flagColNames).getD j ""))) = [] := by
      refine List.filter_eq_nil_iff.2 (fun j hj => ?_)
      obtain ⟨k, hk, rfl⟩ := List.mem_map.1 hj
      have hk4 : k < flagColNames.length := List.mem_range.1 hk
      rw [List.getD_append_right cols flagColNames "" (cols.length + k) (by omega)]
      have hidx : cols.length + k - cols.length = k := by omega
      rw [hidx]
      have hmem : flagColNames.getD k "" ∈ flagColNames := by
        rw [List.getD_eq_getElem flagColNames "" hk4]
        exact List.getElem_mem hk4
      show ¬(!(flagColNames.elem (flagColNames.getD k ""))) = true
      rw [List.elem_iff.2 hmem]
      simp
    rw [h1, h2, List.append_nil]
  rw [hkeep]
  refine congrArg₂ Table.mk (mapGetDRange cols flagColNames "") ?_
  rw [List.map_map]
  refine Eq.trans (List.map_congr_left fun r hr => ?_) (List.map_id rows)
  rw [Function.comp_apply]
  have := mapGetDRange r (ext r) Cell.na
  rw [hrect r hr] at this
  rw [this]
  rfl

/-- Claim C9 (amended): re-running the pipeline on its own cleaned output
with the derived flag columns stripped reproduces the flagged dataset and
the summary exactly, PROVIDED the stripped output is a fixed point of the
cleaning pass (equivalently: normalization did not collapse two distinct
raw rows into equal ones, nor empty out a row or column) and the input
columns do not collide with the four derived names.  The counterexample
shows the proviso is necessary: numeric coercion can merge rows ("85" vs
"85.0"), and the re-run's duplicate drop then shrinks the dataset. -/
theorem C9_idempotence_amended (t : Table) (gb : List String)
    (hdisj : ∀ n ∈ flagColNames, n ∉ t.cols)
    (hfix : cleanTable (stripFlagCols (pipelineFlagged t)) = stripFlagCols (pipelineFlagged t)) :
    pipelineFlagged (stripFlagCols (pipelineFlagged t)) = pipelineFlagged t
    ∧ pipelineSummary (stripFlagCols (pipelineFlagged t)) gb = pipelineSummary t gb := by
  set C := cleanTable t with hC
  set m : ColMapping :=
    ⟨inferCol C.cols candidatesPatientId, inferCol C.cols candidatesSex,
     inferCol C.cols candidatesTestName, inferCol C.cols candidatesValue,
     inferCol C.cols candidatesUnits, inferCol C.cols candidatesDate⟩ with hm
  set dc₀ := findDateColumns C.cols with hdc₀
  set dc := (match m.date with
    | some d => if d ∈ dc₀ then dc₀ else dc₀ ++ [d]
    | none => dc₀) with hdc
  set mods := colMods C.cols dc m.value with hmods
  have hns : normalizeSchema C = (⟨C.cols, C.rows.map (applyMods mods)⟩, m, dc) := rfl
  set N : Table := ⟨C.cols, C.rows.map (applyMods mods)⟩ with hN
  have hdisjC : ∀ n ∈ flagColNames, n ∉ C.cols :=
    fun n hn hmem => hdisj n hn (cleanTable_cols_subset t n hmem)
  have hrectC : ∀ r ∈ C.rows, r.length = C.cols.length := cleanTable_rect t
  have hrectN : ∀ r ∈ N.rows, r.length = N.cols.length := by
    intro r hr
    obtain ⟨r₁, hr₁, rfl⟩ := List.mem_map.1 hr
    rw [applyMods_length]
    exact hrectC r₁ hr₁
  have hmno : ∀ c, m.test_name = some c ∨ m.value = some c ∨ m.sex = some c →
      c ∉ flagColNames := by
    intro c hc hflag
    have hcin : c ∈ C.cols := by
      rcases hc with h | h | h
      · exact (inferCol_some C.cols candidatesTestName c h).1
      · exact (inferCol_some C.cols candidatesValue c h).1
      · exact (inferCol_some C.cols candidatesSex c h).1
    exact hdisjC c hflag hcin
  have hchar : applyReferenceRanges N m
      = ⟨N.cols ++ flagColNames, N.rows.map (fun r => r ++ flagCells4 N.cols m r)⟩ :=
    applyRR_char N m hdisjC hmno hrectN
  have hflagged : pipelineFlagged t = applyReferenceRanges N m := by
    show applyReferenceRanges (normalizeSchema (cleanTable t)).1
      (normalizeSchema (cleanTable t)).2.1 = applyReferenceRanges N m
    rw [← hC, hns]
  have hstrip : stripFlagCols (pipelineFlagged t) = N := by
    rw [hflagged, hchar]
    exact stripFlag_of_append N.cols N.rows (fun r => flagCells4 N.cols m r) hdisjC hrectN
  rw [hstrip] at hfix ⊢
  have hdcnodup : dc.Nodup := by
    have h0 : dc₀.Nodup := dedupFirst_nodup _
    rw [hdc]
    cases hdate : m.date with
    | none => exact h0
    | some dn =>
      dsimp only
      by_cases hmem : dn ∈ dc₀
      · rw [if_pos hmem]; exact h0
      · rw [if_neg hmem]
        refine List.Nodup.append h0 (List.nodup_singleton dn) ?_
        intro a ha hb
        rw [List.mem_singleton] at hb
        subst hb
        exact hmem ha
  have hdc₀_dateLike : ∀ c ∈ dc₀, dateLike c = true := by
    intro c hcm
    have := dedupFirst_subset _ c hcm
    exact (List.mem_filter.1 this).2
  have hvnot : ∀ v, m.value = some v → v ∉ dc := by
    intro v hv hmem
    have hv' : inferCol C.cols candidatesValue = some v := hv
    rw [hdc] at hmem
    cases hdate : m.date with
    | none =>
      rw [hdate] at hmem
      dsimp only at hmem
      exact absurd (hdc₀_dateLike v hmem) (by rw [value_not_dateLike C.cols v hv']; simp)
    | some dn =>
      have hdn : inferCol C.cols candidatesDate = some dn := hdate
      rw [hdate] at hmem
      dsimp only at hmem
      by_cases hin : dn ∈ dc₀
      · rw [if_pos hin] at hmem
        exact absurd (hdc₀_dateLike v hmem) (by rw [value_not_dateLike C.cols v hv']; simp)
      · rw [if_neg hin] at hmem
        rcases List.mem_append.1 hmem with hmem | hmem
        · exact absurd (hdc₀_dateLike v hmem) (by rw [value_not_dateLike C.cols v hv']; simp)
        · rw [List.mem_singleton] at hmem
          exact value_ne_dateName C.cols v dn hv' hdn hmem
  have hpw : mods.Pairwise (fun p q => p.1 ≠ q.1) :=
    colMods_pairwise C.cols dc m.value hdcnodup hvnot
  have hide : ∀ q ∈ mods, ∀ c, q.2 (q.2 c) = q.2 c := colMods_idem C.cols dc m.value
  have hdataidem : N.rows.map (applyMods mods) = N.rows := by
    show (C.rows.map (applyMods mods)).map (applyMods mods) = C.rows.map (applyMods mods)
    rw [List.map_map]
    exact List.map_congr_left (fun r _ => applyMods_idem mods hpw hide r)
  have hns2 : normalizeSchema N = (⟨C.cols, N.rows.map (applyMods mods)⟩, m, dc) := rfl
  have hN2 : (normalizeSchema N).1 = N := by
    rw [hns2]
    show (⟨C.cols, N.rows.map (applyMods mods)⟩ : Table) = N
    rw [hdataidem]
  have hm2 : (normalizeSchema N).2.1 = m := by rw [hns2]
  constructor
  · show applyReferenceRanges (normalizeSchema (cleanTable N)).1
      (normalizeSchema (cleanTable N)).2.1 = pipelineFlagged t
    rw [hfix, hN2, hm2, hflagged]
  · show summarize (applyReferenceRanges (normalizeSchema (cleanTable N)).1
        (normalizeSchema (cleanTable N)).2.1) (normalizeSchema (cleanTable N)).2.1 gb
      = pipelineSummary t gb
    rw [hfix, hN2, hm2]
    show _ = summarize (applyReferenceRanges (normalizeSchema (cleanTable t)).1
        (normalizeSchema (cleanTable t)).2.1) (normalizeSchema (cleanTable t)).2.1 gb
    rw [← hC, hns]

theorem C9_idempotence_amended_witness :
    pipelineFlagged (stripFlagCols (pipelineFlagged idemWitnessTable))
        = pipelineFlagged idemWitnessTable
    ∧ pipelineSummary (stripFlagCols (pipelineFlagged idemWitnessTable)) ["test_name", "sex"]
        = pipelineSummary idemWitnessTable ["test_name", "sex"] :=
  C9_idempotence_amended idemWitnessTable ["test_name", "sex"] (by decide) (by decide)
